import Mathlib

/-!
# Exporter configuration of the trace command-line tool

A shallow embedding of `tracing/otlp_exporter.go` (package `tracing`):
`DefaultConfig`, `ConfigFromEnvironment`, `CreateExporter` and
`isLoopbackAddress`, together with the parts of the Go standard library they
call (`strings`, `net/url`, `net`, `regexp` patterns).

Go strings are byte sequences and are embedded as lists of bytes.  Calls that
leave the process (`os.Getenv`, `net.LookupIP`) and the Unicode case tables are
parameters of the model.  `otlphttp.New` and `otlpgrpc.New` are outside the
repository: `CreateExporter` is embedded up to the call it makes, that is, the
constructor it chooses and the option list it passes.

The traceparent codec and the finish command, which `command/finish_test.go`
drives, are not among the source files.  They are modelled from the spec, and
each such definition says so.  The spec leaves open how the name, the start
time and the start attributes of a span reach the finish command; they are a
parameter of `FinishCommand.Run`.
-/

set_option autoImplicit false

namespace Tracing

/-! ## Go strings -/

/-- A Go string: an immutable sequence of bytes. -/
abbrev GoString := List Nat

/-- The bytes of an ASCII string literal of the source. -/
def lit (s : String) : GoString := s.toList.map Char.toNat

/-- Go slice expression `s[lo:hi]`. -/
def slice (s : GoString) (lo hi : Nat) : GoString := (s.take hi).drop lo

/-- Go slice expression `s[lo:]`. -/
def sliceFrom (s : GoString) (lo : Nat) : GoString := s.drop lo

/-- Function `strings.HasPrefix`. -/
def HasPrefix (s pre : GoString) : Bool := pre.isPrefixOf s

/-- Function `strings.HasSuffix`. -/
def HasSuffix (s suf : GoString) : Bool := suf.isSuffixOf s

/-- Position of the first occurrence of `sep` in `s`, if any. -/
def indexOf (sep : GoString) : GoString → Option Nat
  | [] => if sep = [] then some 0 else none
  | c :: cs =>
    if sep.isPrefixOf (c :: cs) then some 0
    else (indexOf sep cs).map (· + 1)

/-- Function `strings.Index`: the index of the first instance of `sep` in `s`,
or `-1` if `sep` is not present. -/
def Index (s sep : GoString) : Int :=
  match indexOf sep s with
  | some i => (i : Int)
  | none => -1

/-- Position of the last occurrence of `sep` in `s`, if any. -/
def lastIndexOf (sep : GoString) : GoString → Option Nat
  | [] => if sep = [] then some 0 else none
  | c :: cs =>
    match lastIndexOf sep cs with
    | some i => some (i + 1)
    | none => if sep.isPrefixOf (c :: cs) then some 0 else none

/-- Function `strings.LastIndex` (and `strings.LastIndexByte`). -/
def LastIndex (s sep : GoString) : Int :=
  match lastIndexOf sep s with
  | some i => (i : Int)
  | none => -1

/-- Function `strings.Contains`. -/
def Contains (s sep : GoString) : Bool := decide (0 ≤ Index s sep)

/-- Function `strings.Count` for a one-byte separator. -/
def Count (s : GoString) (sep : Nat) : Nat := s.count sep

/-- Function `strings.Cut`: `(before, after, found)` around the first instance
of `sep`; `(s, "", false)` when `sep` does not occur. -/
def Cut (s sep : GoString) : GoString × GoString × Bool :=
  match indexOf sep s with
  | some i => (s.take i, s.drop (i + sep.length), true)
  | none => (s, [], false)

/-- Function `strings.Split` for a one-byte separator `sep`: the substrings
between the separators, in order; one more than there are separators. -/
def Split (s : GoString) (sep : Nat) : List GoString :=
  match s with
  | [] => [[]]
  | c :: cs =>
    if c = sep then [] :: Split cs sep
    else
      match Split cs sep with
      | [] => [[c]]
      | h :: t => (c :: h) :: t

/-- Function `strings.SplitN(s, sep, 2)` for a one-byte separator: at most two
substrings, the second being the unsplit remainder. -/
def SplitN2 (s : GoString) (sep : Nat) : List GoString :=
  match indexOf [sep] s with
  | some i => [s.take i, s.drop (i + 1)]
  | none => [s]

/-- The table `asciiSpace` of package `strings`: tab, newline, vertical tab,
form feed, carriage return, space. -/
def asciiSpace (c : Nat) : Bool :=
  c = 9 || c = 10 || c = 11 || c = 12 || c = 13 || c = 32

/-- Strips from the front of `s` every rune for which `unicode.IsSpace` holds.
Besides the six ASCII bytes these are, in UTF-8: U+0085 and U+00A0 (`C2 85`,
`C2 A0`), U+1680 (`E1 9A 80`), U+2000..U+200A, U+2028, U+2029, U+202F
(`E2 80 80..8A`, `E2 80 A8`, `E2 80 A9`, `E2 80 AF`), U+205F (`E2 81 9F`) and
U+3000 (`E3 80 80`).  A byte that does not start one of these encodings
decodes to a rune that is not a space and stops the scan. -/
def trimLeftSpace : GoString → GoString
  | [] => []
  | c :: cs =>
    if asciiSpace c then trimLeftSpace cs
    else
      match cs with
      | d :: e :: r =>
        if c = 0xC2 ∧ (d = 0x85 ∨ d = 0xA0) then trimLeftSpace (e :: r)
        else if (c = 0xE1 ∧ d = 0x9A ∧ e = 0x80)
            ∨ (c = 0xE2 ∧ d = 0x80 ∧ ((0x80 ≤ e ∧ e ≤ 0x8A) ∨ e = 0xA8 ∨ e = 0xA9 ∨ e = 0xAF))
            ∨ (c = 0xE2 ∧ d = 0x81 ∧ e = 0x9F)
            ∨ (c = 0xE3 ∧ d = 0x80 ∧ e = 0x80) then trimLeftSpace r
        else c :: cs
      | [d] =>
        if c = 0xC2 ∧ (d = 0x85 ∨ d = 0xA0) then [] else c :: cs
      | [] => c :: cs

/-- Mirror image of `trimLeftSpace` on the reversed string: strips the space
runes at the end of the original string (their encodings read backwards). -/
def trimLeftSpaceRev : GoString → GoString
  | [] => []
  | c :: cs =>
    if asciiSpace c then trimLeftSpaceRev cs
    else
      match cs with
      | d :: e :: r =>
        if d = 0xC2 ∧ (c = 0x85 ∨ c = 0xA0) then trimLeftSpaceRev (e :: r)
        else if (e = 0xE1 ∧ d = 0x9A ∧ c = 0x80)
            ∨ (e = 0xE2 ∧ d = 0x80 ∧ ((0x80 ≤ c ∧ c ≤ 0x8A) ∨ c = 0xA8 ∨ c = 0xA9 ∨ c = 0xAF))
            ∨ (e = 0xE2 ∧ d = 0x81 ∧ c = 0x9F)
            ∨ (e = 0xE3 ∧ d = 0x80 ∧ c = 0x80) then trimLeftSpaceRev r
        else c :: cs
      | [d] =>
        if d = 0xC2 ∧ (c = 0x85 ∨ c = 0xA0) then [] else c :: cs
      | [] => c :: cs

/-- Function `strings.TrimSpace`: `s` without leading and trailing white space
as defined by Unicode.  The source's ASCII fast path and its fall-back to
`TrimFunc(s, unicode.IsSpace)` compute the same slice: the leading space runes
are dropped first, then the trailing ones of what is left. -/
def TrimSpace (s : GoString) : GoString :=
  (trimLeftSpaceRev (trimLeftSpace s).reverse).reverse

/-- ASCII branch of `unicode.ToLower`. -/
def lowerByte (c : Nat) : Nat :=
  if 65 ≤ c ∧ c ≤ 90 then c + 32 else c

/-- Function `strings.ToLower`.  A string of ASCII bytes only is lowered byte
by byte (the source's fast path); any other string goes through
`strings.Map(unicode.ToLower, s)`, which needs the Unicode case tables and is
the parameter `mapToLower`. -/
def ToLower (mapToLower : GoString → GoString) (s : GoString) : GoString :=
  if s.all (fun c => decide (c < 128)) then s.map lowerByte else mapToLower s

/-! ## Errors -/

/-- The errors of the parser of package `net/url`. -/
inductive UrlErr where
  /-- Message `net/url: invalid control character in URL`. -/
  | invalidControlCharacter
  /-- Message `missing protocol scheme`. -/
  | missingProtocolScheme
  /-- Message `first path segment in URL cannot contain colon`. -/
  | firstPathSegmentColon
  /-- Message `missing ']' in host`. -/
  | missingBracket
  /-- Message `invalid port ... after host`. -/
  | invalidPort (colonPort : GoString)
  /-- Message `net/url: invalid userinfo`. -/
  | invalidUserinfo
  /-- Type `url.EscapeError`: invalid URL escape. -/
  | EscapeError (s : GoString)
  /-- Type `url.InvalidHostError`: invalid character in host name. -/
  | InvalidHostError (s : GoString)
  deriving DecidableEq, Repr

/-- Type `url.Error` as `url.Parse` builds it: `&url.Error{"parse", URL, Err}`. -/
structure ParseError where
  URL : GoString
  Err : UrlErr
  deriving DecidableEq, Repr

/-- The error values of the module.  `LookupErr` is the type of the errors of
`net.LookupIP`. -/
inductive Error (LookupErr : Type) where
  /-- Value `fmt.Errorf("unable to parse '%s' as a key:value pair, missing a ':'", pair)`. -/
  | missingColon (pair : GoString)
  /-- An error returned by `url.Parse`, passed on unchanged. -/
  | urlError (err : ParseError)
  /-- An error returned by `net.LookupIP`, passed on unchanged. -/
  | lookup (err : LookupErr)
  deriving DecidableEq, Repr

/-! ## Configuration from the environment -/

/-- A Go `map[string]string`, kept as an association list with one entry per
key.  The order of the entries has no counterpart in Go. -/
abbrev HeaderMap := List (GoString × GoString)

/-- Map assignment `m[k] = v`. -/
def mapSet : HeaderMap → GoString → GoString → HeaderMap
  | [], k, v => [(k, v)]
  | (k1, v1) :: m, k, v => if k1 = k then (k, v) :: m else (k1, v1) :: mapSet m k v

/-- Map read `m[k]` with its presence flag. -/
def mapGet : HeaderMap → GoString → Option GoString
  | [], _ => none
  | (k1, v1) :: m, k => if k1 = k then some v1 else mapGet m k

/-- Type `ExporterConfig`. -/
structure ExporterConfig where
  Endpoint : GoString
  Headers : HeaderMap
  deriving DecidableEq, Repr

/-- Constant `OtlpEndpointEnvVar`, the general endpoint variable. -/
def OtlpEndpointEnvVar : GoString := lit "OTEL_EXPORTER_OTLP_ENDPOINT"

/-- Constant `OtlpTracesEndpointEnvVar`, the trace-specific endpoint variable. -/
def OtlpTracesEndpointEnvVar : GoString := lit "OTEL_EXPORTER_OTLP_TRACES_ENDPOINT"

/-- Constant `OtlpHeaders`, the headers variable. -/
def OtlpHeaders : GoString := lit "OTEL_EXPORTER_OTLP_HEADERS"

/-- Function `DefaultConfig`. -/
def DefaultConfig : ExporterConfig :=
  { Endpoint := lit "localhost:4317", Headers := [] }

/-- The loop `for _, pair := range strings.Split(val, ",")` of
`ConfigFromEnvironment`, run over the remaining pairs. -/
def headerLoop {E : Type} (config : ExporterConfig) : List GoString → Except (Error E) ExporterConfig
  | [] => .ok config
  | pair :: pairs =>
    let index := Index pair (lit ":")
    if index = -1 then
      .error (.missingColon pair)
    else
      let key := TrimSpace (slice pair 0 index.toNat)
      let val := TrimSpace (sliceFrom pair (index + 1).toNat)
      headerLoop { config with Headers := mapSet config.Headers key val } pairs

/-- Function `ConfigFromEnvironment`.  The process environment is read through
`getenv` (`os.Getenv`, which yields the empty string for an unset variable).
On failure Go returns `nil` and the error: no configuration value exists. -/
def ConfigFromEnvironment {E : Type} (getenv : GoString → GoString) : Except (Error E) ExporterConfig :=
  let config := DefaultConfig
  let config :=
    if getenv OtlpTracesEndpointEnvVar ≠ [] then
      { config with Endpoint := getenv OtlpTracesEndpointEnvVar }
    else if getenv OtlpEndpointEnvVar ≠ [] then
      { config with Endpoint := getenv OtlpEndpointEnvVar }
    else config
  if getenv OtlpHeaders ≠ [] then
    headerLoop config (Split (getenv OtlpHeaders) 44)
  else
    .ok config

/-! ## Package `net/url`

The parser behind `url.Parse`, after the source of the Go standard library.
Of the fields of `url.URL` the model keeps those the parser validates or the
module reads; the escaped forms `RawPath` and `RawFragment` and the flag
`OmitHost` are dropped, the program never reads them. -/

/-- Type `url.Userinfo`: a username and, if set, a password. -/
structure Userinfo where
  username : GoString
  password : Option GoString
  deriving DecidableEq, Repr

/-- Type `url.URL`. -/
structure URL where
  Scheme : GoString
  Opaque : GoString
  User : Option Userinfo
  Host : GoString
  Path : GoString
  ForceQuery : Bool
  RawQuery : GoString
  Fragment : GoString
  deriving DecidableEq, Repr

/-- The value `new(URL)`. -/
def URL.zero : URL :=
  { Scheme := [], Opaque := [], User := none, Host := [], Path := [],
    ForceQuery := false, RawQuery := [], Fragment := [] }

/-- Type `encoding` of `net/url`. -/
inductive encoding where
  | encodePath
  | encodePathSegment
  | encodeHost
  | encodeZone
  | encodeUserPassword
  | encodeQueryComponent
  | encodeFragment
  deriving DecidableEq, Repr

/-- Function `ishex`. -/
def ishex (c : Nat) : Bool :=
  (48 ≤ c && c ≤ 57) || (97 ≤ c && c ≤ 102) || (65 ≤ c && c ≤ 70)

/-- Function `unhex`. -/
def unhex (c : Nat) : Nat :=
  if 48 ≤ c ∧ c ≤ 57 then c - 48
  else if 97 ≤ c ∧ c ≤ 102 then c - 97 + 10
  else if 65 ≤ c ∧ c ≤ 70 then c - 65 + 10
  else 0

/-- ASCII letter or digit. -/
def isAlnum (c : Nat) : Bool :=
  (97 ≤ c && c ≤ 122) || (65 ≤ c && c ≤ 90) || (48 ≤ c && c ≤ 57)

/-- Function `shouldEscape(c, encodeHost)` (the same for `encodeZone`), the
only mode in which `unescape` calls it.  Not escaped in a host: letters,
digits, the sub-delimiters and `: [ ] < > "` of the host case, and the marks
`- _ . ~`; every other byte, the reserved `/ ? @` among them, is. -/
def shouldEscapeHost (c : Nat) : Bool :=
  if isAlnum c then false
  else if c ∈ [33, 36, 38, 39, 40, 41, 42, 43, 44, 59, 61, 58, 91, 93, 60, 62, 34] then false
  else if c ∈ [45, 95, 46, 126] then false
  else true

/-- First loop of `unescape`: checks that every `%` starts a well-formed
escape and applies the restrictions of the host and zone modes. -/
def unescapeCheck (mode : encoding) : GoString → Except UrlErr Unit
  | [] => .ok ()
  | c :: cs =>
    if c = 37 then
      match cs with
      | a :: b :: rest =>
        if !ishex a || !ishex b then .error (.EscapeError [c, a, b])
        else if mode = .encodeHost ∧ unhex a < 8 ∧ [c, a, b] ≠ lit "%25" then
          .error (.EscapeError [c, a, b])
        else if mode = .encodeZone ∧ [c, a, b] ≠ lit "%25"
            ∧ ((unhex a <<< 4) ||| unhex b) % 256 ≠ 32
            ∧ shouldEscapeHost (((unhex a <<< 4) ||| unhex b) % 256) then
          .error (.EscapeError [c, a, b])
        else unescapeCheck mode rest
      | _ => .error (.EscapeError (c :: cs))
    else if (mode = .encodeHost ∨ mode = .encodeZone) ∧ c ≠ 43 ∧ c < 128 ∧ shouldEscapeHost c then
      .error (.InvalidHostError [c])
    else unescapeCheck mode cs

/-- Second loop of `unescape`: replaces each `%XX` by its byte, and `+` by a
space in the query-component mode. -/
def unescapeBytes (mode : encoding) : GoString → GoString
  | [] => []
  | c :: cs =>
    if c = 37 then
      match cs with
      | a :: b :: rest => (((unhex a <<< 4) ||| unhex b) % 256) :: unescapeBytes mode rest
      | _ => []
    else if c = 43 then
      (if mode = .encodeQueryComponent then 32 else 43) :: unescapeBytes mode cs
    else c :: unescapeBytes mode cs

/-- Function `unescape`.  The source returns `s` itself when it holds no `%`
(and, for a query component, no `+`); the second loop is the identity then. -/
def unescape (s : GoString) (mode : encoding) : Except UrlErr GoString :=
  match unescapeCheck mode s with
  | .error e => .error e
  | .ok () => .ok (unescapeBytes mode s)

/-- Function `stringContainsCTLByte`. -/
def stringContainsCTLByte (s : GoString) : Bool :=
  s.any (fun b => decide (b < 32) || decide (b = 127))

/-- ASCII letter. -/
def isLetter (c : Nat) : Bool := (97 ≤ c && c ≤ 122) || (65 ≤ c && c ≤ 90)

/-- The loop of `getScheme` at index `i`, with `cs = rawURL[i:]`. -/
def getSchemeLoop (rawURL : GoString) : Nat → GoString → Except UrlErr (GoString × GoString)
  | _, [] => .ok ([], rawURL)
  | i, c :: cs =>
    if isLetter c then getSchemeLoop rawURL (i + 1) cs
    else if (48 ≤ c ∧ c ≤ 57) ∨ c = 43 ∨ c = 45 ∨ c = 46 then
      if i = 0 then .ok ([], rawURL) else getSchemeLoop rawURL (i + 1) cs
    else if c = 58 then
      if i = 0 then .error .missingProtocolScheme
      else .ok (slice rawURL 0 i, sliceFrom rawURL (i + 1))
    else .ok ([], rawURL)

/-- Function `getScheme`: `(scheme, rest)`. -/
def getScheme (rawURL : GoString) : Except UrlErr (GoString × GoString) :=
  getSchemeLoop rawURL 0 rawURL

/-- Function `validOptionalPort`: empty, or a colon followed by digits. -/
def validOptionalPort (port : GoString) : Bool :=
  match port with
  | [] => true
  | c :: ds => c = 58 && ds.all (fun b => decide (48 ≤ b) && decide (b ≤ 57))

/-- Function `validUserinfo`.  The source ranges over runes; a rune outside
ASCII is never in the accepted set. -/
def validUserinfo (s : GoString) : Bool :=
  s.all (fun r => isAlnum r
    || decide (r ∈ [45, 46, 95, 58, 126, 33, 36, 38, 39, 40, 41, 42, 43, 44, 59, 61, 37, 64]))

/-- Function `parseHost`. -/
def parseHost (host : GoString) : Except UrlErr GoString :=
  if HasPrefix host (lit "[") then
    let i := LastIndex host (lit "]")
    if i < 0 then .error .missingBracket
    else
      let colonPort := sliceFrom host (i + 1).toNat
      if !validOptionalPort colonPort then .error (.invalidPort colonPort)
      else
        let zone := Index (slice host 0 i.toNat) (lit "%25")
        if 0 ≤ zone then
          match unescape (slice host 0 zone.toNat) .encodeHost with
          | .error e => .error e
          | .ok host1 =>
            match unescape (slice host zone.toNat i.toNat) .encodeZone with
            | .error e => .error e
            | .ok host2 =>
              match unescape (sliceFrom host i.toNat) .encodeHost with
              | .error e => .error e
              | .ok host3 => .ok (host1 ++ host2 ++ host3)
        else unescape host .encodeHost
  else
    let i := LastIndex host (lit ":")
    if i ≠ -1 ∧ !validOptionalPort (sliceFrom host i.toNat) then
      .error (.invalidPort (sliceFrom host i.toNat))
    else unescape host .encodeHost

/-- Function `parseAuthority`: `(user, host)`. -/
def parseAuthority (authority : GoString) : Except UrlErr (Option Userinfo × GoString) :=
  let i := LastIndex authority (lit "@")
  match (if i < 0 then parseHost authority else parseHost (sliceFrom authority (i + 1).toNat)) with
  | .error e => .error e
  | .ok host =>
    if i < 0 then .ok (none, host)
    else
      let userinfo := slice authority 0 i.toNat
      if !validUserinfo userinfo then .error .invalidUserinfo
      else if !Contains userinfo (lit ":") then
        match unescape userinfo .encodeUserPassword with
        | .error e => .error e
        | .ok userinfo => .ok (some { username := userinfo, password := none }, host)
      else
        match unescape (Cut userinfo (lit ":")).1 .encodeUserPassword with
        | .error e => .error e
        | .ok username =>
          match unescape (Cut userinfo (lit ":")).2.1 .encodeUserPassword with
          | .error e => .error e
          | .ok password => .ok (some { username := username, password := some password }, host)

/-- Function `parse(rawURL, viaRequest)` with `viaRequest = false`, the only
way `url.Parse` calls it.  `lower` is `strings.ToLower`. -/
def parse (lower : GoString → GoString) (rawURL : GoString) : Except UrlErr URL :=
  if stringContainsCTLByte rawURL then .error .invalidControlCharacter
  else if rawURL = lit "*" then .ok { URL.zero with Path := lit "*" }
  else
    match getScheme rawURL with
    | .error e => .error e
    | .ok (scheme, rest0) =>
      let scheme := lower scheme
      let forceQuery := HasSuffix rest0 (lit "?") && Count rest0 63 == 1
      let rest := if forceQuery then slice rest0 0 (rest0.length - 1) else (Cut rest0 (lit "?")).1
      let rawQuery := if forceQuery then [] else (Cut rest0 (lit "?")).2.1
      if !HasPrefix rest (lit "/") ∧ scheme ≠ [] then
        .ok { URL.zero with Scheme := scheme, ForceQuery := forceQuery, RawQuery := rawQuery,
                            Opaque := rest }
      else if !HasPrefix rest (lit "/") ∧ Contains (Cut rest (lit "/")).1 (lit ":") then
        .error .firstPathSegmentColon
      else
        let hasAuthority :=
          (scheme ≠ [] ∨ !HasPrefix rest (lit "///")) ∧ HasPrefix rest (lit "//")
        let authority :=
          if 0 ≤ Index (sliceFrom rest 2) (lit "/")
          then slice (sliceFrom rest 2) 0 (Index (sliceFrom rest 2) (lit "/")).toNat
          else sliceFrom rest 2
        let restPath :=
          if hasAuthority then
            (if 0 ≤ Index (sliceFrom rest 2) (lit "/")
             then sliceFrom (sliceFrom rest 2) (Index (sliceFrom rest 2) (lit "/")).toNat
             else [])
          else rest
        match (if hasAuthority then parseAuthority authority else .ok (none, [])) with
        | .error e => .error e
        | .ok (user, host) =>
          match unescape restPath .encodePath with
          | .error e => .error e
          | .ok path =>
            .ok { URL.zero with Scheme := scheme, ForceQuery := forceQuery, RawQuery := rawQuery,
                                User := user, Host := host, Path := path }

/-- Function `url.Parse`: the fragment is cut off at the first `#`, the rest
is parsed, then the fragment is unescaped (`setFragment`).  Errors are wrapped
in `&url.Error{"parse", ..., err}`. -/
def Parse (lower : GoString → GoString) (rawURL : GoString) : Except ParseError URL :=
  let u := (Cut rawURL (lit "#")).1
  let frag := (Cut rawURL (lit "#")).2.1
  match parse lower u with
  | .error err => .error { URL := u, Err := err }
  | .ok url =>
    if frag = [] then .ok url
    else
      match unescape frag .encodeFragment with
      | .error err => .error { URL := rawURL, Err := err }
      | .ok f => .ok { url with Fragment := f }

/-- Function `splitHostPort` of `net/url`: `(host, port)`, the host without
the square brackets of an IPv6 literal. -/
def splitHostPort (hostPort : GoString) : GoString × GoString :=
  let colon := LastIndex hostPort (lit ":")
  let split := colon ≠ -1 ∧ validOptionalPort (sliceFrom hostPort colon.toNat)
  let host := if split then slice hostPort 0 colon.toNat else hostPort
  let port := if split then sliceFrom hostPort (colon + 1).toNat else []
  let host :=
    if HasPrefix host (lit "[") && HasSuffix host (lit "]")
    then slice host 1 (host.length - 1) else host
  (host, port)

/-- Method `(*URL).Hostname`. -/
def URL.Hostname (u : URL) : GoString := (splitHostPort u.Host).1

/-- Method `(*URL).Port`. -/
def URL.Port (u : URL) : GoString := (splitHostPort u.Host).2

/-! ## Package `net` and the two regular expressions -/

/-- Type `net.IP`: a slice of bytes, 4 for an IPv4 address and 16 for an IPv6
address. -/
abbrev IP := List Nat

/-- Variable `net.IPv6loopback`, the address `::1`. -/
def IPv6loopback : IP := [0, 0, 0, 0, 0, 0, 0, 0, 0, 0, 0, 0, 0, 0, 0, 1]

/-- Method `(IP).To4`: the 4-byte form of an IPv4 address (also when it is
written as an IPv4-mapped IPv6 address), `nil` otherwise. -/
def IP.To4 (ip : IP) : Option IP :=
  if ip.length = 4 then some ip
  else if ip.length = 16 ∧ (ip.take 10).all (fun b => decide (b = 0))
      ∧ ip.getD 10 0 = 0xff ∧ ip.getD 11 0 = 0xff then some (slice ip 12 16)
  else none

/-- Method `(IP).Equal` against `IPv6loopback`, for an `ip` that is not an
IPv4 address: equal lengths and equal bytes. -/
def IP.EqualLoopback6 (ip : IP) : Bool := decide (ip = IPv6loopback)

/-- Method `(IP).IsLoopback`. -/
def IP.IsLoopback (ip : IP) : Bool :=
  match ip.To4 with
  | some ip4 => decide (ip4.getD 0 0 = 127)
  | none => ip.EqualLoopback6

/-- What the module needs from outside the process: the Unicode branch of
`strings.ToLower` and the resolver behind `net.LookupIP`, whose errors have
type `E`. -/
structure Runtime (E : Type) where
  mapToLower : GoString → GoString
  LookupIP : GoString → Except E (List IP)

/-- Function `strings.ToLower` in a given runtime. -/
def Runtime.ToLower {E : Type} (rt : Runtime E) (s : GoString) : GoString :=
  Tracing.ToLower rt.mapToLower s

/-- Character class of the pattern `hpRe`: a word byte, a dot or a hyphen. -/
def isHostByte (c : Nat) : Bool := isAlnum c || c = 95 || c = 46 || c = 45

/-- ASCII digit, the class of the pattern `hpRe` for the port. -/
def isDigit (c : Nat) : Bool := 48 ≤ c && c ≤ 57

/-- Value `hpRe.MatchString(s)` for the pattern `^[\w.-]+:\d+$`: one or more
host bytes, a colon, one or more digits, and nothing else.  The class of the
host has no colon, so the host is the run of host bytes at the start. -/
def hpReMatch (s : GoString) : Bool :=
  !(s.takeWhile isHostByte).isEmpty &&
    (match s.dropWhile isHostByte with
     | c :: ds => c = 58 && !ds.isEmpty && ds.all isDigit
     | [] => false)

/-- Value `uriRe.MatchString(s)` for the pattern `^(http|https)`. -/
def uriReMatch (s : GoString) : Bool := HasPrefix s (lit "http")

/-! ## The exporter -/

/-- The options of package `otlptracehttp` the module builds. -/
inductive HttpOption where
  | WithEndpoint (endpoint : GoString)
  | WithURLPath (urlPath : GoString)
  | WithInsecure
  | WithHeaders (headers : HeaderMap)
  deriving DecidableEq, Repr

/-- The options of package `otlptracegrpc` the module builds. -/
inductive GrpcOption where
  | WithEndpoint (endpoint : GoString)
  | WithInsecure
  | WithHeaders (headers : HeaderMap)
  deriving DecidableEq, Repr

/-- The constructor call `CreateExporter` ends with: `otlphttp.New(ctx, opts...)`
or `otlpgrpc.New(ctx, opts...)`. -/
inductive ExporterCall where
  | otlphttpNew (opts : List HttpOption)
  | otlpgrpcNew (opts : List GrpcOption)
  deriving DecidableEq, Repr

/-- The loop over `ips` of `isLoopbackAddress`, started with
`allAreLoopback := true`. -/
def allAreLoopbackLoop (allAreLoopback : Bool) : List IP → Bool
  | [] => allAreLoopback
  | ip :: ips =>
    if !ip.IsLoopback then allAreLoopbackLoop false ips
    else allAreLoopbackLoop allAreLoopback ips

/-- The part of `isLoopbackAddress` that works out the `hostname` to look up:
the text before the first colon when the trimmed endpoint matches `hpRe`, the
host of the parsed URL when it matches `uriRe`, and the empty string (the zero
value of `var hostname string`) otherwise. -/
def probeHostname {E : Type} (rt : Runtime E) (endpoint : GoString) : Except (Error E) GoString :=
  let endpoint := TrimSpace endpoint
  if hpReMatch endpoint then
    .ok ((SplitN2 endpoint 58).headD [])
  else if uriReMatch endpoint then
    match Parse rt.ToLower endpoint with
    | .error err => .error (.urlError err)
    | .ok u => .ok u.Hostname
  else .ok []

/-- Function `isLoopbackAddress`. -/
def isLoopbackAddress {E : Type} (rt : Runtime E) (endpoint : GoString) : Except (Error E) Bool :=
  match probeHostname rt endpoint with
  | .error err => .error err
  | .ok hostname =>
    match rt.LookupIP hostname with
    | .error err => .error (.lookup err)
    | .ok ips => .ok (allAreLoopbackLoop true ips)

/-- Function `CreateExporter`, up to the constructor call it returns. -/
def CreateExporter {E : Type} (rt : Runtime E) (conf : ExporterConfig) : Except (Error E) ExporterCall :=
  let endpoint := rt.ToLower conf.Endpoint
  match Parse rt.ToLower endpoint with
  | .error err => .error (.urlError err)
  | .ok u =>
    if HasPrefix endpoint (lit "https://") || HasPrefix endpoint (lit "http://") then
      let opts : List HttpOption := []
      let hostAndPort := u.Host
      let hostAndPort :=
        if u.Port = [] then
          (if u.Scheme = lit "https" then hostAndPort ++ lit ":443" else hostAndPort ++ lit ":80")
        else hostAndPort
      let opts := opts ++ [.WithEndpoint hostAndPort]
      let u := if u.Path = [] then { u with Path := lit "/v1/traces" } else u
      let opts := opts ++ [.WithURLPath u.Path]
      let opts := if u.Scheme = lit "http" then opts ++ [.WithInsecure] else opts
      let opts := opts ++ [.WithHeaders conf.Headers]
      .ok (.otlphttpNew opts)
    else
      let opts : List GrpcOption := []
      let opts := opts ++ [.WithEndpoint endpoint]
      match isLoopbackAddress rt endpoint with
      | .error err => .error err
      | .ok isLocal =>
        let opts := if isLocal then opts ++ [.WithInsecure] else opts
        let opts := opts ++ [.WithHeaders conf.Headers]
        .ok (.otlpgrpcNew opts)

/-! ## Reading a constructor call -/

/-- Whether the call goes to the HTTP transport. -/
def ExporterCall.isHttp : ExporterCall → Bool
  | .otlphttpNew _ => true
  | .otlpgrpcNew _ => false

/-- The host:port strings handed over (`WithEndpoint`), in order. -/
def ExporterCall.endpoints : ExporterCall → List GoString
  | .otlphttpNew opts => opts.filterMap (fun o => match o with | .WithEndpoint e => some e | _ => none)
  | .otlpgrpcNew opts => opts.filterMap (fun o => match o with | .WithEndpoint e => some e | _ => none)

/-- The URL paths handed over (`WithURLPath`, HTTP only), in order. -/
def ExporterCall.urlPaths : ExporterCall → List GoString
  | .otlphttpNew opts => opts.filterMap (fun o => match o with | .WithURLPath p => some p | _ => none)
  | .otlpgrpcNew _ => []

/-- Whether the transport is told to skip encryption (`WithInsecure`). -/
def ExporterCall.insecure : ExporterCall → Bool
  | .otlphttpNew opts => decide (HttpOption.WithInsecure ∈ opts)
  | .otlpgrpcNew opts => decide (GrpcOption.WithInsecure ∈ opts)

/-- The header mappings handed over (`WithHeaders`), in order. -/
def ExporterCall.headers : ExporterCall → List HeaderMap
  | .otlphttpNew opts => opts.filterMap (fun o => match o with | .WithHeaders h => some h | _ => none)
  | .otlpgrpcNew opts => opts.filterMap (fun o => match o with | .WithHeaders h => some h | _ => none)

/-! ## The header list as the spec words it -/

/-- A header value written out from its entries: the entries with a comma
between neighbours. -/
def joinWith (sep : Nat) : List GoString → GoString
  | [] => []
  | [e] => e
  | e :: e2 :: es => e ++ sep :: joinWith sep (e2 :: es)

/-- Key of an entry as the spec has it: the text before the first colon,
trimmed of surrounding white space. -/
def specEntryKey (entry : GoString) : GoString :=
  TrimSpace (entry.takeWhile (fun c => decide (c ≠ 58)))

/-- Value of an entry as the spec has it: all the text after the first colon,
later colons included, trimmed of surrounding white space. -/
def specEntryValue (entry : GoString) : GoString :=
  TrimSpace ((entry.dropWhile (fun c => decide (c ≠ 58))).drop 1)

/-- The binding of key `k` as the spec has it: the value of the last entry
whose key is `k`, none when no entry has that key. -/
def specHeaderLookup (entries : List GoString) (k : GoString) : Option GoString :=
  (entries.reverse.find? (fun e => decide (specEntryKey e = k))).map specEntryValue

/-- The header map after assigning the entries in order, starting from `m`. -/
def specFold (m : HeaderMap) (entries : List GoString) : HeaderMap :=
  entries.foldl (fun m e => mapSet m (specEntryKey e) (specEntryValue e)) m

/-- The endpoint as the spec has it: the trace-specific variable, else the
general one, else the built-in default. -/
def specEndpoint (getenv : GoString → GoString) : GoString :=
  if getenv OtlpTracesEndpointEnvVar ≠ [] then getenv OtlpTracesEndpointEnvVar
  else if getenv OtlpEndpointEnvVar ≠ [] then getenv OtlpEndpointEnvVar
  else lit "localhost:4317"

/-- A byte of a plain host name: letter, digit, dot or hyphen. -/
def isPlainHostByte (c : Nat) : Bool := isAlnum c || c = 46 || c = 45

/-- The text is a plain authority over `host`: the host alone, or the host, a
colon and decimal digits (possibly none). -/
def isPlainAuthorityOf (authority host port : GoString) : Prop :=
  host ≠ [] ∧ (∀ c ∈ host, isPlainHostByte c = true) ∧ (∀ c ∈ port, isDigit c = true)
    ∧ (authority = host ∨ authority = host ++ 58 :: port)

/-! ## The span continuation protocol

The traceparent codec and the finish command are not among the source files;
`command/finish_test.go` drives them.  They are modelled from sections 3, 4.1,
4.4, 6 and 7 of the spec, with the names the tests use. -/

/-- Modelled from the spec: the lower-case hexadecimal digit of a value below
16, for the traceparent text format of section 6 (the codec is missing from the
sources). -/
def hexDigit (n : Nat) : Nat := if n < 10 then 48 + n else 87 + n

/-- Modelled from the spec: the text of an identifier, two lower-case
hexadecimal digits for each byte (section 6; the codec is missing). -/
def hexEncode : List Nat → GoString
  | [] => []
  | b :: bs => hexDigit (b / 16 % 16) :: hexDigit (b % 16) :: hexEncode bs

/-- Modelled from the spec: the value of a lower-case hexadecimal digit; upper
case is refused, decoding being case-sensitive (section 6; the codec is
missing). -/
def hexValue (c : Nat) : Option Nat :=
  if 48 ≤ c ∧ c ≤ 57 then some (c - 48)
  else if 97 ≤ c ∧ c ≤ 102 then some (c - 87)
  else none

/-- Modelled from the spec: the bytes a text of lower-case hexadecimal digits
stands for, none when a digit is missing or is not one (section 4.1; the codec
is missing). -/
def hexDecode : GoString → Option (List Nat)
  | [] => some []
  | [_] => none
  | a :: b :: rest =>
    match hexValue a, hexValue b, hexDecode rest with
    | some x, some y, some bs => some ((x * 16 + y) :: bs)
    | _, _, _ => none

/-- Modelled from the spec: the version byte of a traceparent, "a fixed
supported value" of section 3 whose value the spec leaves open; the W3C value
`00` is taken (the codec is missing). -/
def traceparentVersion : Nat := 0

/-- Modelled from the spec: the flags byte `Encode` writes, which the spec
leaves open; the W3C value `01` is taken (the codec is missing). -/
def traceparentFlags : Nat := 1

/-- Modelled from the spec: the invariant of an identifier of section 3, `n`
bytes that are not all zero (the codec is missing). -/
def validID (n : Nat) (id : List Nat) : Prop :=
  id.length = n ∧ (∀ b ∈ id, b < 256) ∧ ∃ b ∈ id, b ≠ 0

/-- Modelled from the spec: `Encode(traceId, spanId)` of section 4.1, the text
`version-traceId-spanId-flags` in lower-case hexadecimal (the codec is
missing). -/
def Encode (traceId spanId : List Nat) : GoString :=
  joinWith 45 [hexEncode [traceparentVersion], hexEncode traceId, hexEncode spanId,
    hexEncode [traceparentFlags]]

/-- Modelled from the spec: `Decode` of section 4.1, which the tests call
`tracing.ParseTraceParent` (missing from the sources).  Strict: exactly four
segments between hyphens, of 2, 32, 16 and 2 lower-case hexadecimal digits, the
supported version, and neither identifier all zero; `none` is the failure
`MalformedTraceContext`. -/
def ParseTraceParent (s : GoString) : Option (List Nat × List Nat) :=
  match Split s 45 with
  | [v, t, sp, f] =>
    if v.length = 2 ∧ t.length = 32 ∧ sp.length = 16 ∧ f.length = 2 then
      match hexDecode v, hexDecode t, hexDecode sp, hexDecode f with
      | some vb, some tb, some sb, some _ =>
        if vb = [traceparentVersion] ∧ ¬ tb.all (fun b => decide (b = 0)) = true
            ∧ ¬ sb.all (fun b => decide (b = 0)) = true then some (tb, sb)
        else none
      | _, _, _, _ => none
    else none
  | _ => none

/-- Modelled from the spec: the status code of a span, `ok` or `error`
(section 3; the span type belongs to the SDK, outside the sources). -/
inductive StatusCode where
  | ok
  | error
  deriving DecidableEq, Repr

/-- Modelled from the spec: the status of a span, `{code, description}` of
section 3 (outside the sources). -/
structure SpanStatus where
  code : StatusCode
  description : GoString
  deriving DecidableEq, Repr

/-- Modelled from the spec: the span of section 3 (outside the sources); times
are Unix nanoseconds, the attributes a mapping from string to string. -/
structure Span where
  name : GoString
  traceId : List Nat
  spanId : List Nat
  startTime : Int
  endTime : Int
  attributes : HeaderMap
  status : SpanStatus
  deriving DecidableEq, Repr

/-- Modelled from the spec: merging `name=value` attributes into an attribute
mapping in the order given, "last write wins on duplicate keys" (section 4.4;
the commands are missing). -/
def mergeAttributes (m : HeaderMap) (attrs : List (GoString × GoString)) : HeaderMap :=
  attrs.foldl (fun m p => mapSet m p.1 p.2) m

/-- Modelled from the spec: the "knowledge of the original start" that section
4.4 makes the caller carry from start to finish, the traceparent carrying the
identity only: the name, the start time and the attributes given at start (the
commands are missing). -/
structure StartKnowledge where
  name : GoString
  startTime : Int
  attributes : HeaderMap
  deriving DecidableEq, Repr

/-- Modelled from the spec: the in-memory exporter of the tests,
`tracing.NewMemoryExporter()` with its field `Spans` (missing from the
sources): the black box that accepts a finished span. -/
structure MemoryExporter where
  Spans : List Span
  deriving DecidableEq, Repr

/-- Modelled from the spec: the finish command as the tests set it up (missing
from the sources): the clock `now` and the exporter injected through
`testSpanExporter`; without one the exporter is built from the environment. -/
structure FinishCommand where
  now : Int
  testSpanExporter : Option MemoryExporter
  deriving DecidableEq, Repr

/-- Modelled from the spec: the parsed command line of finish, section 6:
`finish [<traceparent>] [--attr k=v]... [--error <message>]` (the argument
parser is outside the spec's core and missing from the sources). -/
structure FinishFlags where
  args : List GoString
  attrs : List (GoString × GoString)
  error : Option GoString
  deriving DecidableEq, Repr

/-- Modelled from the spec: the failures of finish in the taxonomy of section 7
(the commands are missing); a failure to build the exporter carries the error
of `ConfigFromEnvironment` or `CreateExporter`. -/
inductive FinishFailure (E : Type) where
  | MissingTraceParent
  | MalformedTraceContext
  | exporter (err : Error E)
  deriving DecidableEq, Repr

/-- Modelled from the spec: the one-line diagnostic of a failure (section 7;
the commands are missing).  The wording for a missing traceparent is the one
`finish_test.go` expects; no source words the others, the name of the error in
the taxonomy stands in for them. -/
def FinishFailure.diagnostic {E : Type} : FinishFailure E → GoString
  | .MissingTraceParent => lit "this command takes 1 argument: traceparent"
  | .MalformedTraceContext => lit "MalformedTraceContext"
  | .exporter (.missingColon _) => lit "ConfigParseError"
  | .exporter (.urlError _) => lit "EndpointResolutionError"
  | .exporter (.lookup _) => lit "EndpointResolutionError"

/-- Modelled from the spec: what an invocation of finish leaves behind: its
exit code, its error output, the failure if any, the spans handed to the
exporter, and the injected exporter afterwards (the commands are missing). -/
structure FinishResult (E : Type) where
  exitCode : Nat
  errorOutput : GoString
  failure : Option (FinishFailure E)
  exported : List Span
  testSpanExporter : Option MemoryExporter
  deriving DecidableEq, Repr

/-- Modelled from the spec: the constant `TraceParentEnvVar` the tests use, the
variable that may carry the traceparent (section 6); its value is missing from
the sources, the W3C name is taken. -/
def TraceParentEnvVar : GoString := lit "TRACEPARENT"

/-- Modelled from the spec: a failed invocation of finish: exit code 1, the
diagnostic on the error output, nothing exported (sections 4.4 and 6; the
commands are missing). -/
def FinishCommand.fail {E : Type} (cmd : FinishCommand) (failure : FinishFailure E) :
    FinishResult E :=
  { exitCode := 1
    errorOutput := failure.diagnostic
    failure := some failure
    exported := []
    testSpanExporter := cmd.testSpanExporter }

/-- Modelled from the spec: the status of the span the finish command exports
(section 4.4, and the error test of the finish command), the command being
missing from the sources: `error` with the message when the error flag is
given, `ok` otherwise. -/
def statusOfErrorFlag : Option GoString → SpanStatus
  | some message => { code := .error, description := message }
  | none => { code := .ok, description := [] }

/-- Modelled from the spec: the span the finish command exports (section 4.4),
the command being missing from the sources: the decoded identity, the name,
start time and start attributes the caller carries, the clock reading as end
time, the attributes of this invocation merged in, and the status of the error
flag. -/
def FinishCommand.span (cmd : FinishCommand) (known : StartKnowledge) (flags : FinishFlags)
    (traceId spanId : List Nat) : Span :=
  { name := known.name
    traceId := traceId
    spanId := spanId
    startTime := known.startTime
    endTime := cmd.now
    attributes := mergeAttributes known.attributes flags.attrs
    status := statusOfErrorFlag flags.error }

/-- Modelled from the spec: the finish command of sections 2, 4.4 and 6,
missing from the sources (method `Run` in the tests).  The traceparent is the
first positional argument if there is one, else the environment variable if it
is set, else the invocation fails with `MissingTraceParent`; it is decoded, a
failure being `MalformedTraceContext`; the span takes the decoded identity, the
name, start time and start attributes the caller carries (`known`), the clock
reading as end time, the attributes of this invocation merged in, and status
`error` with the message when the error flag is given, `ok` otherwise; the
exporter is the injected one, or is built by `ConfigFromEnvironment` and
`CreateExporter`, a failure there ending the invocation with exit code 1; the
span is exported and the exit code is 0. -/
def FinishCommand.Run {E : Type} (cmd : FinishCommand) (rt : Runtime E)
    (getenv : GoString → GoString) (known : StartKnowledge) (flags : FinishFlags) :
    FinishResult E :=
  let traceParent : Option GoString :=
    match flags.args with
    | first :: _ => some first
    | [] => if getenv TraceParentEnvVar ≠ [] then some (getenv TraceParentEnvVar) else none
  match traceParent with
  | none => cmd.fail .MissingTraceParent
  | some tp =>
    match ParseTraceParent tp with
    | none => cmd.fail .MalformedTraceContext
    | some (traceId, spanId) =>
      let span : Span := cmd.span known flags traceId spanId
      match cmd.testSpanExporter with
      | some exporter =>
        { exitCode := 0
          errorOutput := []
          failure := none
          exported := [span]
          testSpanExporter := some { Spans := exporter.Spans ++ [span] } }
      | none =>
        match ConfigFromEnvironment (E := E) getenv with
        | .error err => cmd.fail (.exporter err)
        | .ok conf =>
          match CreateExporter rt conf with
          | .error err => cmd.fail (.exporter err)
          | .ok _ =>
            { exitCode := 0
              errorOutput := []
              failure := none
              exported := [span]
              testSpanExporter := none }

/-- Modelled from the spec: `tracing.NewMemoryExporter` of the tests, missing
from the sources: an exporter that has recorded no span yet. -/
def NewMemoryExporter : MemoryExporter := { Spans := [] }

/-- Modelled from the spec: `NewFinishCommand` of the tests, missing from the
sources, with the reading of its clock: no exporter is injected. -/
def NewFinishCommand (now : Int) : FinishCommand :=
  { now := now, testSpanExporter := none }

/-- The helper `createTestFinishCommand` of `command/finish_test.go`, with the
reading of the clock the test sets: a finish command whose span exporter is a
fresh memory exporter. -/
def createTestFinishCommand (now : Int) : FinishCommand :=
  { NewFinishCommand now with testSpanExporter := some NewMemoryExporter }

/-! ## Sample environments -/

/-- A resolver for the examples: `localhost` is the loopback pair `127.0.0.1`,
`::1`; `collector.example.com` is the public address `203.0.113.7`; `http` is
`10.0.0.8`; every other name fails with error `0`. -/
def sampleLookup (host : GoString) : Except Nat (List IP) :=
  if host = lit "localhost" then .ok [[127, 0, 0, 1], IPv6loopback]
  else if host = lit "collector.example.com" then .ok [[203, 0, 113, 7]]
  else if host = lit "http" then .ok [[10, 0, 0, 8]]
  else .error 0

/-- A runtime for the examples; its Unicode case mapping is never reached by
the ASCII endpoints used. -/
def sampleRuntime : Runtime Nat :=
  { mapToLower := id, LookupIP := sampleLookup }

/-- An environment in which only the headers variable is set. -/
def envWithHeaders (headers : GoString) (name : GoString) : GoString :=
  if name = OtlpHeaders then headers else []

/-- An environment with all three variables set. -/
def sampleEnv (name : GoString) : GoString :=
  if name = OtlpTracesEndpointEnvVar then lit "https://traces.example.com"
  else if name = OtlpEndpointEnvVar then lit "collector.example.com:4317"
  else if name = OtlpHeaders then lit "a:b"
  else []

/-- A runtime in which every name resolves to the one loopback address
`127.0.0.1`. -/
def loopbackRuntime : Runtime Nat :=
  { mapToLower := id, LookupIP := fun _ => .ok [[127, 0, 0, 1]] }

/-- A runtime whose resolver answers every name with no address and no error:
`net.LookupIP` returning an empty slice and a `nil` error. -/
def emptyLookupRuntime : Runtime Nat :=
  { mapToLower := id, LookupIP := fun _ => .ok [] }

/-- A trace identifier for the examples, 16 bytes. -/
def sampleTraceId : List Nat :=
  [0x4b, 0xf9, 0x2f, 0x35, 0x77, 0xb3, 0x4d, 0xa6, 0xa3, 0xce, 0x92, 0x9d, 0x0e, 0x0e, 0x47, 0x36]

/-- A span identifier for the examples, 8 bytes, the first of them zero. -/
def sampleSpanId : List Nat := [0x00, 0xf0, 0x67, 0xaa, 0x0b, 0xa9, 0x02, 0xb7]

/-- The traceparent of the sample identifiers. -/
def sampleTraceParent : GoString :=
  lit "00-4bf92f3577b34da6a3ce929d0e0e4736-00f067aa0ba902b7-01"

/-- An environment in which no variable is set. -/
def emptyEnv (_ : GoString) : GoString := []

/-- An environment in which only the traceparent variable is set. -/
def envWithTraceParent (tp : GoString) (name : GoString) : GoString :=
  if name = TraceParentEnvVar then tp else []

/-- What the caller carries from the start of the span `tests` at time `s`
with no attribute. -/
def sampleKnowledge (s : Int) : StartKnowledge :=
  { name := lit "tests", startTime := s, attributes := [] }

/-! ## Lemmas on strings and on the header loop -/

theorem lit_colon : lit ":" = [58] := by decide

theorem indexOf_byte_of_mem (b : Nat) (s : GoString) (h : b ∈ s) :
    indexOf [b] s = some (s.takeWhile (fun c => decide (c ≠ b))).length := by
  induction s with
  | nil => simp at h
  | cons c cs ih =>
    by_cases hc : c = b
    · subst hc
      simp [indexOf, List.isPrefixOf]
    · have hmem : b ∈ cs := by
        rcases List.mem_cons.mp h with h1 | h1
        · exact absurd h1.symm hc
        · exact h1
      have hne : ¬ b = c := fun h => hc h.symm
      simp [indexOf, List.isPrefixOf, hc, hne, ih hmem]

theorem indexOf_byte_of_not_mem (b : Nat) (s : GoString) (h : b ∉ s) :
    indexOf [b] s = none := by
  induction s with
  | nil => simp [indexOf]
  | cons c cs ih =>
    have hc : ¬ b = c := fun e => h (by simp [e])
    have hmem : b ∉ cs := fun e => h (List.mem_cons_of_mem _ e)
    simp [indexOf, List.isPrefixOf, hc, ih hmem]

theorem take_takeWhile_length (p : Nat → Bool) (s : GoString) :
    s.take (s.takeWhile p).length = s.takeWhile p := by
  induction s with
  | nil => simp
  | cons c cs ih =>
    by_cases hc : p c <;> simp [List.takeWhile, hc, ih]

theorem drop_takeWhile_length (p : Nat → Bool) (s : GoString) :
    s.drop (s.takeWhile p).length = s.dropWhile p := by
  induction s with
  | nil => simp
  | cons c cs ih =>
    by_cases hc : p c <;> simp [List.takeWhile, List.dropWhile, hc, ih]

theorem Index_colon_of_mem (pair : GoString) (h : 58 ∈ pair) :
    Index pair (lit ":") = ((pair.takeWhile (fun c => decide (c ≠ 58))).length : Int) := by
  simp [Index, lit_colon, indexOf_byte_of_mem 58 pair h]

theorem Index_colon_of_not_mem (pair : GoString) (h : 58 ∉ pair) :
    Index pair (lit ":") = -1 := by
  simp [Index, lit_colon, indexOf_byte_of_not_mem 58 pair h]

theorem headerLoop_cons_of_mem {E : Type} (config : ExporterConfig) (pair : GoString)
    (pairs : List GoString) (h : 58 ∈ pair) :
    headerLoop (E := E) config (pair :: pairs)
      = headerLoop { config with
          Headers := mapSet config.Headers (specEntryKey pair) (specEntryValue pair) } pairs := by
  have hi := Index_colon_of_mem pair h
  have hne : ¬ (Index pair (lit ":") = -1) := by rw [hi]; omega
  simp only [headerLoop, hne, if_false]
  rw [hi]
  simp only [Int.toNat_ofNat, slice, sliceFrom, List.drop_zero, specEntryKey, specEntryValue]
  have h1 : ((↑(List.takeWhile (fun c => decide (c ≠ 58)) pair).length : Int) + 1).toNat
      = (List.takeWhile (fun c => decide (c ≠ 58)) pair).length + 1 := by omega
  rw [h1, take_takeWhile_length, ← List.drop_drop, drop_takeWhile_length]

theorem headerLoop_cons_of_not_mem {E : Type} (config : ExporterConfig) (pair : GoString)
    (pairs : List GoString) (h : 58 ∉ pair) :
    headerLoop (E := E) config (pair :: pairs) = .error (.missingColon pair) := by
  simp [headerLoop, Index_colon_of_not_mem pair h]

theorem headerLoop_ok {E : Type} (entries : List GoString) (config : ExporterConfig)
    (h : ∀ e ∈ entries, 58 ∈ e) :
    headerLoop (E := E) config entries
      = .ok { config with Headers := specFold config.Headers entries } := by
  induction entries generalizing config with
  | nil => simp [headerLoop, specFold]
  | cons e es ih =>
    rw [headerLoop_cons_of_mem config e es (h e (List.mem_cons_self _ _))]
    rw [ih _ (fun x hx => h x (List.mem_cons_of_mem _ hx))]
    simp [specFold]

theorem headerLoop_error_iff {E : Type} (entries : List GoString) (config : ExporterConfig) :
    (∃ err, headerLoop (E := E) config entries = .error err) ↔ ∃ e ∈ entries, 58 ∉ e := by
  induction entries generalizing config with
  | nil => simp [headerLoop]
  | cons e es ih =>
    by_cases he : 58 ∈ e
    · rw [headerLoop_cons_of_mem config e es he, ih]
      constructor
      · rintro ⟨x, hx, hx2⟩
        exact ⟨x, List.mem_cons_of_mem _ hx, hx2⟩
      · rintro ⟨x, hx, hx2⟩
        rcases List.mem_cons.mp hx with h1 | h1
        · subst h1; exact absurd he hx2
        · exact ⟨x, h1, hx2⟩
    · rw [headerLoop_cons_of_not_mem config e es he]
      exact ⟨fun _ => ⟨e, List.mem_cons_self _ _, he⟩, fun _ => ⟨_, rfl⟩⟩

theorem headerLoop_error_form {E : Type} (entries : List GoString) (config : ExporterConfig)
    (err : Error E) (h : headerLoop (E := E) config entries = .error err) :
    ∃ e ∈ entries, 58 ∉ e ∧ err = .missingColon e := by
  induction entries generalizing config with
  | nil => simp [headerLoop] at h
  | cons e es ih =>
    by_cases he : 58 ∈ e
    · rw [headerLoop_cons_of_mem config e es he] at h
      obtain ⟨x, hx, hx2⟩ := ih _ h
      exact ⟨x, List.mem_cons_of_mem _ hx, hx2⟩
    · rw [headerLoop_cons_of_not_mem config e es he] at h
      injection h with h
      exact ⟨e, List.mem_cons_self _ _, he, h.symm⟩

theorem headerLoop_Endpoint {E : Type} (entries : List GoString) (config cfg : ExporterConfig)
    (h : headerLoop (E := E) config entries = .ok cfg) : cfg.Endpoint = config.Endpoint := by
  induction entries generalizing config with
  | nil => simp [headerLoop] at h; rw [← h]
  | cons e es ih =>
    by_cases he : 58 ∈ e
    · rw [headerLoop_cons_of_mem config e es he] at h
      have := ih _ h
      simpa using this
    · rw [headerLoop_cons_of_not_mem config e es he] at h
      cases h

theorem mapGet_mapSet (m : HeaderMap) (k v k2 : GoString) :
    mapGet (mapSet m k v) k2 = if k = k2 then some v else mapGet m k2 := by
  induction m with
  | nil => simp [mapSet, mapGet]
  | cons p m ih =>
    obtain ⟨k1, v1⟩ := p
    by_cases h1 : k1 = k
    · subst h1
      by_cases h : k1 = k2 <;> simp [mapSet, mapGet, h]
    · by_cases h : k = k2
      · subst h
        simp [mapSet, mapGet, h1, ih]
      · by_cases h3 : k1 = k2
        · subst h3
          simp [mapSet, mapGet, h1, h]
        · simp [mapSet, mapGet, h1, h, h3, ih]

theorem keys_mapSet (m : HeaderMap) (k v : GoString) (x : GoString) :
    x ∈ (mapSet m k v).map Prod.fst ↔ x = k ∨ x ∈ m.map Prod.fst := by
  induction m with
  | nil => simp [mapSet]
  | cons p m ih =>
    obtain ⟨k1, v1⟩ := p
    by_cases h1 : k1 = k
    · subst h1; simp [mapSet]
    · simp only [mapSet, h1, if_false, List.map_cons, List.mem_cons, ih]
      tauto

theorem nodup_mapSet (m : HeaderMap) (k v : GoString) (h : (m.map Prod.fst).Nodup) :
    ((mapSet m k v).map Prod.fst).Nodup := by
  induction m with
  | nil => simp [mapSet]
  | cons p m ih =>
    obtain ⟨k1, v1⟩ := p
    simp only [List.map_cons, List.nodup_cons] at h
    by_cases h1 : k1 = k
    · subst h1; simpa [mapSet] using h
    · simp only [mapSet, h1, if_false, List.map_cons, List.nodup_cons]
      refine ⟨?_, ih h.2⟩
      intro hx
      rcases (keys_mapSet m k v k1).mp hx with h2 | h2
      · exact h1 h2
      · exact h.1 h2

theorem nodup_specFold (entries : List GoString) (m : HeaderMap) (h : (m.map Prod.fst).Nodup) :
    ((specFold m entries).map Prod.fst).Nodup := by
  induction entries generalizing m with
  | nil => simpa [specFold] using h
  | cons e es ih =>
    simp only [specFold, List.foldl_cons]
    exact ih _ (nodup_mapSet m _ _ h)

theorem mapGet_specFold (entries : List GoString) (m : HeaderMap) (k : GoString) :
    mapGet (specFold m entries) k
      = match specHeaderLookup entries k with
        | some v => some v
        | none => mapGet m k := by
  induction entries generalizing m with
  | nil => simp [specFold, specHeaderLookup]
  | cons e es ih =>
    simp only [specFold, List.foldl_cons]
    have := ih (mapSet m (specEntryKey e) (specEntryValue e))
    simp only [specFold] at this
    rw [this]
    simp only [specHeaderLookup, List.reverse_cons, List.find?_append]
    cases hf : List.find? (fun e => decide (specEntryKey e = k)) es.reverse with
    | some x => simp
    | none =>
      by_cases hk : specEntryKey e = k
      · simp [hk, mapGet_mapSet]
      · simp [hk, mapGet_mapSet]

theorem Split_ne_nil (s : GoString) (sep : Nat) : Split s sep ≠ [] := by
  induction s with
  | nil => simp [Split]
  | cons c cs ih =>
    unfold Split
    by_cases h : c = sep
    · simp [h]
    · simp only [h, if_false]
      cases hs : Split cs sep with
      | nil => exact absurd hs ih
      | cons a t => simp

theorem Split_of_not_mem (e : GoString) (sep : Nat) (h : sep ∉ e) : Split e sep = [e] := by
  induction e with
  | nil => simp [Split]
  | cons c cs ih =>
    have hc : ¬ c = sep := fun x => h (by simp [x])
    have ih2 := ih (fun x => h (List.mem_cons_of_mem _ x))
    unfold Split
    simp [hc, ih2]

theorem Split_append_sep (e r : GoString) (sep : Nat) (h : sep ∉ e) :
    Split (e ++ sep :: r) sep = e :: Split r sep := by
  induction e with
  | nil => simp [Split]
  | cons c cs ih =>
    have hc : ¬ c = sep := fun x => h (by simp [x])
    have ih2 := ih (fun x => h (List.mem_cons_of_mem _ x))
    rw [List.cons_append, Split]
    simp only [hc, if_false, ih2]

theorem Split_joinWith (entries : List GoString) (sep : Nat) (hne : entries ≠ [])
    (h : ∀ e ∈ entries, sep ∉ e) : Split (joinWith sep entries) sep = entries := by
  induction entries with
  | nil => exact absurd rfl hne
  | cons e es ih =>
    cases es with
    | nil => simpa [joinWith] using Split_of_not_mem e sep (h e (List.mem_cons_self _ _))
    | cons e2 es =>
      simp only [joinWith]
      rw [Split_append_sep e _ sep (h e (List.mem_cons_self _ _))]
      rw [ih (by simp) (fun x hx => h x (List.mem_cons_of_mem _ hx))]

theorem joinWith_Split (s : GoString) (sep : Nat) : joinWith sep (Split s sep) = s := by
  induction s with
  | nil => simp [Split, joinWith]
  | cons c cs ih =>
    unfold Split
    by_cases hc : c = sep
    · simp only [hc, if_true]
      cases hs : Split cs sep with
      | nil => exact absurd hs (Split_ne_nil _ _)
      | cons a t =>
        rw [hs] at ih
        simp [joinWith, ih]
    · simp only [hc, if_false]
      cases hs : Split cs sep with
      | nil => exact absurd hs (Split_ne_nil _ _)
      | cons a t =>
        rw [hs] at ih
        cases t with
        | nil => simp [joinWith] at ih ⊢; exact ih
        | cons b t => simp [joinWith] at ih ⊢; exact ih

theorem Split_no_sep (s : GoString) (sep : Nat) : ∀ e ∈ Split s sep, sep ∉ e := by
  induction s with
  | nil => simp [Split]
  | cons c cs ih =>
    unfold Split
    by_cases hc : c = sep
    · simp only [hc, if_true]
      intro e he
      rcases List.mem_cons.mp he with h | h
      · simp [h]
      · exact ih e (by simpa [hc] using h)
    · simp only [hc, if_false]
      cases hs : Split cs sep with
      | nil => exact absurd hs (Split_ne_nil _ _)
      | cons a t =>
        rw [hs] at ih
        intro e he
        rcases List.mem_cons.mp he with h | h
        · subst h
          intro hm
          rcases List.mem_cons.mp hm with h1 | h1
          · exact hc h1.symm
          · exact ih a (List.mem_cons_self _ _) h1
        · exact ih e (List.mem_cons_of_mem _ h)

theorem joinWith_ne_nil (entries : List GoString) (sep : Nat)
    (h : ∃ e ∈ entries, e ≠ []) : joinWith sep entries ≠ [] := by
  induction entries with
  | nil => simp at h
  | cons e es ih =>
    cases es with
    | nil => simpa [joinWith] using h
    | cons e2 es => simp [joinWith]

/-- C1: when the headers variable is the comma-join of entries that each hold a
colon (so it is not empty), `ConfigFromEnvironment` succeeds, the keys of its
`Headers` are pairwise distinct, and the map binds a key exactly to the value
of the last entry with that key, where an entry is cut at its first colon and
both sides go through `TrimSpace`. -/
theorem c1_headers_bound_per_key {E : Type} (getenv : GoString → GoString)
    (entries : List GoString) (hne : entries ≠ [])
    (hval : getenv OtlpHeaders = joinWith 44 entries)
    (hcomma : ∀ e ∈ entries, 44 ∉ e) (hcolon : ∀ e ∈ entries, 58 ∈ e) :
    getenv OtlpHeaders ≠ [] ∧
    ∃ cfg, ConfigFromEnvironment (E := E) getenv = .ok cfg
      ∧ (cfg.Headers.map Prod.fst).Nodup
      ∧ ∀ k, mapGet cfg.Headers k = specHeaderLookup entries k := by
  have hv : getenv OtlpHeaders ≠ [] := by
    rw [hval]
    apply joinWith_ne_nil
    cases entries with
    | nil => exact absurd rfl hne
    | cons e es =>
      refine ⟨e, List.mem_cons_self _ _, ?_⟩
      intro h0
      have := hcolon e (List.mem_cons_self _ _)
      simp [h0] at this
  refine ⟨hv, ?_⟩
  unfold ConfigFromEnvironment
  simp only [hv, ne_eq, not_false_eq_true, if_true]
  rw [hval, Split_joinWith entries 44 hne hcomma, headerLoop_ok _ _ hcolon]
  refine ⟨_, rfl, ?_, ?_⟩
  · apply nodup_specFold
    split_ifs <;> simp [DefaultConfig]
  · intro k
    rw [mapGet_specFold]
    have : mapGet (if ¬getenv OtlpTracesEndpointEnvVar = [] then
        ({ Endpoint := getenv OtlpTracesEndpointEnvVar, Headers := DefaultConfig.Headers } : ExporterConfig)
      else if ¬getenv OtlpEndpointEnvVar = [] then
        { Endpoint := getenv OtlpEndpointEnvVar, Headers := DefaultConfig.Headers }
      else DefaultConfig).Headers k = none := by
      split_ifs <;> simp [DefaultConfig, mapGet]
    simp only [ne_eq] at *
    rw [this]
    cases specHeaderLookup entries k <;> rfl

/-- C1 at the header value `a:b, c:d`, with the configuration it yields. -/
theorem c1_witness :
    ConfigFromEnvironment (E := Nat) (envWithHeaders (lit "a:b, c:d"))
        = .ok { Endpoint := lit "localhost:4317",
                Headers := [(lit "a", lit "b"), (lit "c", lit "d")] }
    ∧ (envWithHeaders (lit "a:b, c:d") OtlpHeaders ≠ [] ∧
      ∃ cfg, ConfigFromEnvironment (E := Nat) (envWithHeaders (lit "a:b, c:d")) = .ok cfg
        ∧ (cfg.Headers.map Prod.fst).Nodup
        ∧ ∀ k, mapGet cfg.Headers k = specHeaderLookup [lit "a:b", lit " c:d"] k) :=
  ⟨rfl, c1_headers_bound_per_key (envWithHeaders (lit "a:b, c:d")) [lit "a:b", lit " c:d"]
    (by decide) (by decide) (by decide) (by decide)⟩

/-- C2: for a non-empty headers variable, written as the comma-join of its
entries, `ConfigFromEnvironment` returns an error exactly when some entry
holds no colon; the error names such an entry, and a failing call yields no
configuration (the result is the error alone). -/
theorem c2_fails_iff_entry_without_colon {E : Type} (getenv : GoString → GoString)
    (entries : List GoString) (hne : entries ≠ [])
    (hval : getenv OtlpHeaders = joinWith 44 entries)
    (hcomma : ∀ e ∈ entries, 44 ∉ e) (hv : getenv OtlpHeaders ≠ []) :
    ((∃ err, ConfigFromEnvironment (E := E) getenv = .error err) ↔ ∃ e ∈ entries, 58 ∉ e)
    ∧ ∀ err, ConfigFromEnvironment (E := E) getenv = .error err →
        ∃ e ∈ entries, 58 ∉ e ∧ err = .missingColon e := by
  unfold ConfigFromEnvironment
  simp only [hv, ne_eq, not_false_eq_true, if_true]
  rw [hval, Split_joinWith entries 44 hne hcomma]
  exact ⟨headerLoop_error_iff _ _, fun err h => headerLoop_error_form _ _ err h⟩

/-- C2 at the header value `a-b`, with the error it yields. -/
theorem c2_witness :
    ConfigFromEnvironment (E := Nat) (envWithHeaders (lit "a-b")) = .error (.missingColon (lit "a-b"))
    ∧ (((∃ err, ConfigFromEnvironment (E := Nat) (envWithHeaders (lit "a-b")) = .error err)
        ↔ ∃ e ∈ [lit "a-b"], 58 ∉ e)
      ∧ ∀ err, ConfigFromEnvironment (E := Nat) (envWithHeaders (lit "a-b")) = .error err →
          ∃ e ∈ [lit "a-b"], 58 ∉ e ∧ err = .missingColon e) :=
  ⟨rfl, c2_fails_iff_entry_without_colon (envWithHeaders (lit "a-b")) [lit "a-b"]
    (by decide) (by decide) (by decide) (by decide)⟩

theorem ConfigFromEnvironment_Endpoint {E : Type} (getenv : GoString → GoString)
    (cfg : ExporterConfig) (h : ConfigFromEnvironment (E := E) getenv = .ok cfg) :
    cfg.Endpoint = specEndpoint getenv := by
  unfold ConfigFromEnvironment at h
  unfold specEndpoint
  by_cases hv : getenv OtlpHeaders = []
  · simp only [hv, ne_eq, not_true_eq_false, if_false] at h
    injection h with h
    rw [← h]
    by_cases h1 : getenv OtlpTracesEndpointEnvVar = [] <;>
      by_cases h2 : getenv OtlpEndpointEnvVar = [] <;> simp [h1, h2, DefaultConfig]
  · simp only [hv, ne_eq, not_false_eq_true, if_true] at h
    rw [headerLoop_Endpoint _ _ _ h]
    by_cases h1 : getenv OtlpTracesEndpointEnvVar = [] <;>
      by_cases h2 : getenv OtlpEndpointEnvVar = [] <;> simp [h1, h2, DefaultConfig]

/-- C3: when `ConfigFromEnvironment` succeeds, its `Endpoint` is the
trace-specific variable if that is not empty, else the general variable if
that is not empty, else `localhost:4317`; and any other environment that
agrees on these two variables (whatever its headers variable holds) yields
the same `Endpoint` when it succeeds. -/
theorem c3_endpoint_precedence {E : Type} (getenv : GoString → GoString)
    (cfg : ExporterConfig) (h : ConfigFromEnvironment (E := E) getenv = .ok cfg) :
    cfg.Endpoint
        = (if getenv OtlpTracesEndpointEnvVar ≠ [] then getenv OtlpTracesEndpointEnvVar
           else if getenv OtlpEndpointEnvVar ≠ [] then getenv OtlpEndpointEnvVar
           else lit "localhost:4317")
    ∧ ∀ (getenv2 : GoString → GoString) (cfg2 : ExporterConfig),
        getenv2 OtlpTracesEndpointEnvVar = getenv OtlpTracesEndpointEnvVar →
        getenv2 OtlpEndpointEnvVar = getenv OtlpEndpointEnvVar →
        ConfigFromEnvironment (E := E) getenv2 = .ok cfg2 →
        cfg2.Endpoint = cfg.Endpoint := by
  refine ⟨ConfigFromEnvironment_Endpoint getenv cfg h, ?_⟩
  intro getenv2 cfg2 h1 h2 h3
  rw [ConfigFromEnvironment_Endpoint getenv cfg h, ConfigFromEnvironment_Endpoint getenv2 cfg2 h3]
  simp [specEndpoint, h1, h2]

/-- C3 at an environment that sets all three variables. -/
theorem c3_witness :
    ({ Endpoint := lit "https://traces.example.com", Headers := [(lit "a", lit "b")] }
        : ExporterConfig).Endpoint
        = (if sampleEnv OtlpTracesEndpointEnvVar ≠ [] then sampleEnv OtlpTracesEndpointEnvVar
           else if sampleEnv OtlpEndpointEnvVar ≠ [] then sampleEnv OtlpEndpointEnvVar
           else lit "localhost:4317")
    ∧ ∀ (getenv2 : GoString → GoString) (cfg2 : ExporterConfig),
        getenv2 OtlpTracesEndpointEnvVar = sampleEnv OtlpTracesEndpointEnvVar →
        getenv2 OtlpEndpointEnvVar = sampleEnv OtlpEndpointEnvVar →
        ConfigFromEnvironment (E := Nat) getenv2 = .ok cfg2 →
        cfg2.Endpoint
          = ({ Endpoint := lit "https://traces.example.com", Headers := [(lit "a", lit "b")] }
              : ExporterConfig).Endpoint :=
  c3_endpoint_precedence (E := Nat) sampleEnv
    { Endpoint := lit "https://traces.example.com", Headers := [(lit "a", lit "b")] } rfl

/-! ## Lemmas on the URL parser and on the exporter -/

theorem lit_http : lit "http" = [104, 116, 116, 112] := by decide
theorem lit_https : lit "https" = [104, 116, 116, 112, 115] := by decide
theorem lit_httpSS : lit "http://" = [104, 116, 116, 112, 58, 47, 47] := by decide
theorem lit_httpsSS : lit "https://" = [104, 116, 116, 112, 115, 58, 47, 47] := by decide
theorem lit_hash : lit "#" = [35] := by decide
theorem lit_star : lit "*" = [42] := by decide

theorem getScheme_http (r : GoString) :
    getScheme (104 :: 116 :: 116 :: 112 :: 58 :: r) = .ok ([104, 116, 116, 112], r) := by
  simp [getScheme, getSchemeLoop, isLetter, slice, sliceFrom]

theorem getScheme_https (r : GoString) :
    getScheme (104 :: 116 :: 116 :: 112 :: 115 :: 58 :: r) = .ok ([104, 116, 116, 112, 115], r) := by
  simp [getScheme, getSchemeLoop, isLetter, slice, sliceFrom]

/-- Every URL that `parse` returns for a text with a scheme has the lowered scheme. -/
theorem parse_Scheme (lower : GoString → GoString) (rawURL scheme rest : GoString) (u : URL)
    (hstar : rawURL ≠ lit "*") (hs : getScheme rawURL = .ok (scheme, rest))
    (h : parse lower rawURL = .ok u) : u.Scheme = lower scheme := by
  unfold parse at h
  rw [hs] at h
  simp only [hstar, if_false] at h
  split_ifs at h <;>
    first
    | (injection h with h; rw [← h])
    | cases h
    | (split at h <;>
        first
        | (injection h with h; rw [← h])
        | cases h
        | (split at h <;>
            first
            | (injection h with h; rw [← h])
            | cases h))

theorem takeWhile_all (p : Nat → Bool) (s : GoString) (h : ∀ c ∈ s, p c = true) :
    s.takeWhile p = s := by
  induction s with
  | nil => rfl
  | cons c cs ih =>
    simp [List.takeWhile, h c (List.mem_cons_self _ _),
      ih (fun x hx => h x (List.mem_cons_of_mem _ hx))]

theorem Cut_fst_byte (s : GoString) (b : Nat) :
    (Cut s [b]).1 = s.takeWhile (fun c => decide (c ≠ b)) := by
  by_cases h : b ∈ s
  · simp [Cut, indexOf_byte_of_mem b s h, take_takeWhile_length]
  · simp only [Cut, indexOf_byte_of_not_mem b s h]
    rw [takeWhile_all]
    intro c hc
    have : c ≠ b := fun e => h (e ▸ hc)
    simp [this]

theorem Cut_snd_byte (s : GoString) (b : Nat) :
    (Cut s [b]).2.1 = (s.dropWhile (fun c => decide (c ≠ b))).drop 1 := by
  by_cases h : b ∈ s
  · simp only [Cut, indexOf_byte_of_mem b s h, List.length_singleton]
    rw [← List.drop_drop, drop_takeWhile_length]
  · simp only [Cut, indexOf_byte_of_not_mem b s h]
    have : s.dropWhile (fun c => decide (c ≠ b)) = [] := by
      rw [List.dropWhile_eq_nil_iff]
      intro c hc
      have : c ≠ b := fun e => h (e ▸ hc)
      simp [this]
    rw [this]
    rfl

theorem Cut_hash_http (t : GoString) :
    ∃ r, (Cut (lit "http://" ++ t) (lit "#")).1 = 104 :: 116 :: 116 :: 112 :: 58 :: r := by
  rw [lit_hash, Cut_fst_byte, lit_httpSS]
  refine ⟨47 :: 47 :: List.takeWhile (fun c => decide (c ≠ 35)) t, ?_⟩
  simp [List.takeWhile]

theorem Cut_hash_https (t : GoString) :
    ∃ r, (Cut (lit "https://" ++ t) (lit "#")).1 = 104 :: 116 :: 116 :: 112 :: 115 :: 58 :: r := by
  rw [lit_hash, Cut_fst_byte, lit_httpsSS]
  refine ⟨47 :: 47 :: List.takeWhile (fun c => decide (c ≠ 35)) t, ?_⟩
  simp [List.takeWhile]

theorem Parse_Scheme (lower : GoString → GoString) (s scheme rest : GoString) (u : URL)
    (hstar : (Cut s (lit "#")).1 ≠ lit "*")
    (hs : getScheme (Cut s (lit "#")).1 = .ok (scheme, rest))
    (h : Parse lower s = .ok u) : u.Scheme = lower scheme := by
  unfold Parse at h
  simp only at h
  split at h
  · cases h
  · rename_i url hp
    have := parse_Scheme lower _ scheme rest url hstar hs hp
    split_ifs at h
    · injection h with h; rw [← h, this]
    · split at h
      · cases h
      · injection h with h; rw [← h]; exact this

theorem HasPrefix_iff (s pre : GoString) : HasPrefix s pre = true ↔ ∃ t, s = pre ++ t := by
  unfold HasPrefix
  rw [List.isPrefixOf_iff_prefix]
  constructor
  · rintro ⟨t, ht⟩; exact ⟨t, ht.symm⟩
  · rintro ⟨t, ht⟩; exact ⟨t, ht.symm⟩

theorem Parse_Scheme_http (lower : GoString → GoString) (s : GoString) (u : URL)
    (hpre : HasPrefix s (lit "http://") = true) (h : Parse lower s = .ok u) :
    u.Scheme = lower (lit "http") := by
  obtain ⟨t, rfl⟩ := (HasPrefix_iff _ _).mp hpre
  obtain ⟨r, hr⟩ := Cut_hash_http t
  refine Parse_Scheme lower _ _ r u ?_ ?_ h
  · rw [hr, lit_star]; simp
  · rw [hr, lit_http]; exact getScheme_http r

theorem Parse_Scheme_https (lower : GoString → GoString) (s : GoString) (u : URL)
    (hpre : HasPrefix s (lit "https://") = true) (h : Parse lower s = .ok u) :
    u.Scheme = lower (lit "https") := by
  obtain ⟨t, rfl⟩ := (HasPrefix_iff _ _).mp hpre
  obtain ⟨r, hr⟩ := Cut_hash_https t
  refine Parse_Scheme lower _ _ r u ?_ ?_ h
  · rw [hr, lit_star]; simp
  · rw [hr, lit_https]; exact getScheme_https r

theorem ToLower_http {E : Type} (rt : Runtime E) : rt.ToLower (lit "http") = lit "http" := by
  simp [Runtime.ToLower, ToLower, lit_http, lowerByte]

theorem ToLower_https {E : Type} (rt : Runtime E) : rt.ToLower (lit "https") = lit "https" := by
  simp [Runtime.ToLower, ToLower, lit_https, lowerByte]

/-- Shape of the call in the HTTP branch. -/
theorem CreateExporter_http {E : Type} (rt : Runtime E) (conf : ExporterConfig) (u : URL)
    (hpre : HasPrefix (rt.ToLower conf.Endpoint) (lit "https://") = true
      ∨ HasPrefix (rt.ToLower conf.Endpoint) (lit "http://") = true)
    (hparse : Parse rt.ToLower (rt.ToLower conf.Endpoint) = .ok u) :
    CreateExporter rt conf = .ok (.otlphttpNew
      ([.WithEndpoint (if u.Port = [] then
            (if u.Scheme = lit "https" then u.Host ++ lit ":443" else u.Host ++ lit ":80")
          else u.Host),
        .WithURLPath (if u.Path = [] then lit "/v1/traces" else u.Path)]
        ++ (if u.Scheme = lit "http" then [.WithInsecure] else [])
        ++ [.WithHeaders conf.Headers])) := by
  have hp : (HasPrefix (rt.ToLower conf.Endpoint) (lit "https://")
      || HasPrefix (rt.ToLower conf.Endpoint) (lit "http://")) = true := by
    rcases hpre with h | h <;> simp [h]
  unfold CreateExporter
  simp only [hparse, hp, if_true]
  by_cases h1 : u.Path = [] <;> by_cases h2 : u.Scheme = lit "http" <;> simp [h1, h2]

/-- Shape of the result in the gRPC branch. -/
theorem CreateExporter_grpc {E : Type} (rt : Runtime E) (conf : ExporterConfig) (u : URL)
    (hpre1 : HasPrefix (rt.ToLower conf.Endpoint) (lit "https://") = false)
    (hpre2 : HasPrefix (rt.ToLower conf.Endpoint) (lit "http://") = false)
    (hparse : Parse rt.ToLower (rt.ToLower conf.Endpoint) = .ok u) :
    CreateExporter rt conf =
      match isLoopbackAddress rt (rt.ToLower conf.Endpoint) with
      | .error err => .error err
      | .ok isLocal => .ok (.otlpgrpcNew
          ([.WithEndpoint (rt.ToLower conf.Endpoint)]
            ++ (if isLocal then [.WithInsecure] else [])
            ++ [.WithHeaders conf.Headers])) := by
  unfold CreateExporter
  simp only [hparse, hpre1, hpre2, Bool.or_self, Bool.false_eq_true, if_false]
  cases isLoopbackAddress rt (rt.ToLower conf.Endpoint) with
  | error e => rfl
  | ok b => cases b <;> simp

theorem CreateExporter_parse_error {E : Type} (rt : Runtime E) (conf : ExporterConfig)
    (err : ParseError) (hparse : Parse rt.ToLower (rt.ToLower conf.Endpoint) = .error err) :
    CreateExporter rt conf = .error (.urlError err) := by
  unfold CreateExporter
  simp only [hparse]

theorem lastIndexOf_byte_split (b : Nat) (s : GoString) (i : Nat)
    (h : lastIndexOf [b] s = some i) : s = s.take i ++ b :: s.drop (i + 1) := by
  induction s generalizing i with
  | nil => simp [lastIndexOf] at h
  | cons c cs ih =>
    unfold lastIndexOf at h
    cases hl : lastIndexOf [b] cs with
    | some j =>
      rw [hl] at h
      simp only [Option.some.injEq] at h
      subst h
      simp only [List.take_succ_cons, List.drop_succ_cons, List.cons_append]
      rw [← ih j hl]
    | none =>
      rw [hl] at h
      simp only [List.isPrefixOf, Bool.and_true] at h
      split_ifs at h with hc
      simp only [Option.some.injEq] at h
      subst h
      have : b = c := by simpa using hc
      simp [this]

/-- When the URL has a port, its `Host` is a host part, a colon and that port. -/
theorem Host_of_Port_ne_nil (u : URL) (h : u.Port ≠ []) :
    ∃ hostPart, u.Host = hostPart ++ lit ":" ++ u.Port := by
  unfold URL.Port splitHostPort at h ⊢
  simp only at h ⊢
  split_ifs at h ⊢ with hs
  · unfold LastIndex at hs ⊢
    cases hl : lastIndexOf (lit ":") u.Host with
    | none => rw [hl] at hs; simp at hs
    | some i =>
      rw [lit_colon] at hl
      have := lastIndexOf_byte_split 58 u.Host i hl
      refine ⟨u.Host.take i, ?_⟩
      simp only [lit_colon, sliceFrom]
      have h2 : ((i : Int) + 1).toNat = i + 1 := by omega
      rw [h2]
      simpa using this
  · exact absurd rfl h

/-- C4, amended: when the lower-cased endpoint begins with `https://` or
`http://` and parses as a URL `u`, `CreateExporter` calls the HTTP transport,
the scheme of `u` is `https` or `http`, and the one host:port it hands over is
`u.Host` as it stands when `u` has a port (then `u.Host` ends in a colon and
that port), and otherwise, for a `u.Host` that does not end in a colon,
`u.Host` followed by `:443` for https and `:80` for http. -/
theorem c4_http_prefix_host_and_port {E : Type} (rt : Runtime E) (conf : ExporterConfig)
    (u : URL)
    (hpre : HasPrefix (rt.ToLower conf.Endpoint) (lit "https://") = true
      ∨ HasPrefix (rt.ToLower conf.Endpoint) (lit "http://") = true)
    (hparse : Parse rt.ToLower (rt.ToLower conf.Endpoint) = .ok u) :
    ∃ call, CreateExporter rt conf = .ok call ∧ call.isHttp = true
      ∧ (u.Scheme = lit "https" ∨ u.Scheme = lit "http")
      ∧ (u.Port ≠ [] →
          call.endpoints = [u.Host] ∧ ∃ hostPart, u.Host = hostPart ++ lit ":" ++ u.Port)
      ∧ (u.Port = [] → HasSuffix u.Host (lit ":") = false →
          (u.Scheme = lit "https" → call.endpoints = [u.Host ++ lit ":443"])
          ∧ (u.Scheme = lit "http" → call.endpoints = [u.Host ++ lit ":80"])) := by
  refine ⟨_, CreateExporter_http rt conf u hpre hparse, rfl, ?_, ?_, ?_⟩
  · rcases hpre with h | h
    · left; rw [Parse_Scheme_https _ _ u h hparse, ToLower_https]
    · right; rw [Parse_Scheme_http _ _ u h hparse, ToLower_http]
  · intro hp
    refine ⟨?_, Host_of_Port_ne_nil u hp⟩
    by_cases h2 : u.Scheme = lit "http" <;> simp [ExporterCall.endpoints, hp, h2]
  · intro hp _
    constructor
    · intro hs
      have h3 : ¬ lit "https" = lit "http" := by decide
      simp [ExporterCall.endpoints, hp, hs, h3]
    · intro hs
      have h3 : ¬ lit "http" = lit "https" := by decide
      simp [ExporterCall.endpoints, hp, hs, h3]

/-- C4 at `https://collector.example.com`, with the calls made for the two
examples of the claim. -/
theorem c4_witness :
    (∃ call, CreateExporter sampleRuntime
          { Endpoint := lit "https://collector.example.com", Headers := [] } = .ok call
        ∧ call.isHttp = true
        ∧ (lit "https" = lit "https" ∨ lit "https" = lit "http")
        ∧ (URL.Port { URL.zero with Scheme := lit "https", Host := lit "collector.example.com" } ≠ [] →
            call.endpoints = [lit "collector.example.com"]
            ∧ ∃ hostPart, lit "collector.example.com" = hostPart ++ lit ":"
                ++ URL.Port { URL.zero with Scheme := lit "https", Host := lit "collector.example.com" })
        ∧ (URL.Port { URL.zero with Scheme := lit "https", Host := lit "collector.example.com" } = [] →
            HasSuffix (lit "collector.example.com") (lit ":") = false →
            (lit "https" = lit "https" →
              call.endpoints = [lit "collector.example.com" ++ lit ":443"])
            ∧ (lit "https" = lit "http" →
              call.endpoints = [lit "collector.example.com" ++ lit ":80"])))
    ∧ CreateExporter sampleRuntime { Endpoint := lit "https://collector.example.com", Headers := [] }
        = .ok (.otlphttpNew [.WithEndpoint (lit "collector.example.com:443"),
            .WithURLPath (lit "/v1/traces"), .WithHeaders []])
    ∧ CreateExporter sampleRuntime
          { Endpoint := lit "http://collector.example.com:5000/custom", Headers := [] }
        = .ok (.otlphttpNew [.WithEndpoint (lit "collector.example.com:5000"),
            .WithURLPath (lit "/custom"), .WithInsecure, .WithHeaders []]) :=
  ⟨c4_http_prefix_host_and_port sampleRuntime
      { Endpoint := lit "https://collector.example.com", Headers := [] }
      { URL.zero with Scheme := lit "https", Host := lit "collector.example.com" }
      (Or.inl rfl) rfl,
    rfl, rfl⟩

/-- C5, amended: when the lower-cased endpoint begins with `https://` or
`http://` and parses as a URL `u`, `CreateExporter` calls the HTTP transport
and the one URL path it hands over is `/v1/traces` when `u.Path` is empty and
`u.Path` otherwise: the path of the lower-cased endpoint, as the URL parser
returns it. -/
theorem c5_http_url_path {E : Type} (rt : Runtime E) (conf : ExporterConfig) (u : URL)
    (hpre : HasPrefix (rt.ToLower conf.Endpoint) (lit "https://") = true
      ∨ HasPrefix (rt.ToLower conf.Endpoint) (lit "http://") = true)
    (hparse : Parse rt.ToLower (rt.ToLower conf.Endpoint) = .ok u) :
    ∃ call, CreateExporter rt conf = .ok call ∧ call.isHttp = true
      ∧ (u.Path = [] → call.urlPaths = [lit "/v1/traces"])
      ∧ (u.Path ≠ [] → call.urlPaths = [u.Path]) := by
  refine ⟨_, CreateExporter_http rt conf u hpre hparse, rfl, ?_, ?_⟩
  · intro hp
    by_cases h2 : u.Scheme = lit "http" <;> simp [ExporterCall.urlPaths, hp, h2]
  · intro hp
    by_cases h2 : u.Scheme = lit "http" <;> simp [ExporterCall.urlPaths, hp, h2]

/-- C5 at `http://collector.example.com:5000/custom`. -/
theorem c5_witness :
    ∃ call, CreateExporter sampleRuntime
        { Endpoint := lit "http://collector.example.com:5000/custom", Headers := [] } = .ok call
      ∧ call.isHttp = true
      ∧ (lit "/custom" = [] → call.urlPaths = [lit "/v1/traces"])
      ∧ (lit "/custom" ≠ [] → call.urlPaths = [lit "/custom"]) :=
  c5_http_url_path sampleRuntime
    { Endpoint := lit "http://collector.example.com:5000/custom", Headers := [] }
    { URL.zero with Scheme := lit "http", Host := lit "collector.example.com:5000",
                    Path := lit "/custom" }
    (Or.inr rfl) rfl

/-- A call to the HTTP transport comes from the HTTP branch. -/
theorem CreateExporter_isHttp {E : Type} (rt : Runtime E) (conf : ExporterConfig)
    (call : ExporterCall) (h : CreateExporter rt conf = .ok call) (hh : call.isHttp = true) :
    (HasPrefix (rt.ToLower conf.Endpoint) (lit "https://") = true
      ∨ HasPrefix (rt.ToLower conf.Endpoint) (lit "http://") = true)
    ∧ ∃ u, Parse rt.ToLower (rt.ToLower conf.Endpoint) = .ok u := by
  cases hparse : Parse rt.ToLower (rt.ToLower conf.Endpoint) with
  | error err =>
    rw [CreateExporter_parse_error rt conf err hparse] at h
    cases h
  | ok u =>
    refine ⟨?_, u, rfl⟩
    by_cases h1 : HasPrefix (rt.ToLower conf.Endpoint) (lit "https://") = true
    · exact Or.inl h1
    · by_cases h2 : HasPrefix (rt.ToLower conf.Endpoint) (lit "http://") = true
      · exact Or.inr h2
      · exfalso
        rw [CreateExporter_grpc rt conf u (by simpa using h1) (by simpa using h2) hparse] at h
        split at h
        · cases h
        · injection h with h
          rw [← h] at hh
          simp [ExporterCall.isHttp] at hh

/-- C6: whenever `CreateExporter` ends in a call to the HTTP transport, the
lower-cased endpoint parsed as a URL with scheme `https` or `http`, the call
carries `WithInsecure` exactly when that scheme is `http`, and with scheme
`https` it does not carry it. -/
theorem c6_http_insecure_iff_scheme_http {E : Type} (rt : Runtime E) (conf : ExporterConfig)
    (call : ExporterCall) (h : CreateExporter rt conf = .ok call) (hh : call.isHttp = true) :
    ∃ u, Parse rt.ToLower (rt.ToLower conf.Endpoint) = .ok u
      ∧ (u.Scheme = lit "https" ∨ u.Scheme = lit "http")
      ∧ (call.insecure = true ↔ u.Scheme = lit "http")
      ∧ (u.Scheme = lit "https" → call.insecure = false) := by
  obtain ⟨hpre, u, hparse⟩ := CreateExporter_isHttp rt conf call h hh
  have hc := CreateExporter_http rt conf u hpre hparse
  rw [h] at hc
  injection hc with hc
  have hsch : u.Scheme = lit "https" ∨ u.Scheme = lit "http" := by
    rcases hpre with h | h
    · left; rw [Parse_Scheme_https _ _ u h hparse, ToLower_https]
    · right; rw [Parse_Scheme_http _ _ u h hparse, ToLower_http]
  refine ⟨u, hparse, hsch, ?_, ?_⟩
  · rw [hc]
    by_cases h2 : u.Scheme = lit "http" <;> simp [ExporterCall.insecure, h2]
  · intro hs
    have h2 : ¬ u.Scheme = lit "http" := by rw [hs]; decide
    rw [hc]
    simp [ExporterCall.insecure, h2]

/-- C6 at `http://collector.example.com:5000/custom`. -/
theorem c6_witness :
    ∃ u, Parse sampleRuntime.ToLower
          (sampleRuntime.ToLower (lit "http://collector.example.com:5000/custom")) = .ok u
      ∧ (u.Scheme = lit "https" ∨ u.Scheme = lit "http")
      ∧ ((ExporterCall.otlphttpNew [.WithEndpoint (lit "collector.example.com:5000"),
            .WithURLPath (lit "/custom"), .WithInsecure, .WithHeaders []]).insecure = true
          ↔ u.Scheme = lit "http")
      ∧ (u.Scheme = lit "https" →
          (ExporterCall.otlphttpNew [.WithEndpoint (lit "collector.example.com:5000"),
            .WithURLPath (lit "/custom"), .WithInsecure, .WithHeaders []]).insecure = false) :=
  c6_http_insecure_iff_scheme_http sampleRuntime
    { Endpoint := lit "http://collector.example.com:5000/custom", Headers := [] }
    (.otlphttpNew [.WithEndpoint (lit "collector.example.com:5000"),
      .WithURLPath (lit "/custom"), .WithInsecure, .WithHeaders []])
    rfl rfl

theorem allAreLoopbackLoop_eq (b : Bool) (ips : List IP) :
    allAreLoopbackLoop b ips = (b && ips.all (fun ip => ip.IsLoopback)) := by
  induction ips generalizing b with
  | nil => simp [allAreLoopbackLoop]
  | cons ip ips ih =>
    unfold allAreLoopbackLoop
    cases hip : ip.IsLoopback <;> simp [ih, hip]

theorem isLoopbackAddress_ok {E : Type} (rt : Runtime E) (endpoint hostname : GoString)
    (ips : List IP) (hhost : probeHostname rt endpoint = .ok hostname)
    (hlook : rt.LookupIP hostname = .ok ips) :
    isLoopbackAddress rt endpoint = .ok (ips.all (fun ip => ip.IsLoopback)) := by
  unfold isLoopbackAddress
  simp only [hhost, hlook, allAreLoopbackLoop_eq, Bool.true_and]

theorem isLoopbackAddress_lookup_error {E : Type} (rt : Runtime E) (endpoint hostname : GoString)
    (err : E) (hhost : probeHostname rt endpoint = .ok hostname)
    (hlook : rt.LookupIP hostname = .error err) :
    isLoopbackAddress rt endpoint = .error (.lookup err) := by
  unfold isLoopbackAddress
  simp only [hhost, hlook]

/-- The gRPC branch with a successful lookup: when the lower-cased endpoint
parses, does not begin with `https://` or `http://`, and `net.LookupIP` returns
the addresses `ips` for the hostname `isLoopbackAddress` works out, the call to
the gRPC transport carries `WithInsecure` exactly when every address in `ips`
is a loopback address. -/
theorem grpc_insecure_iff_of_probe {E : Type} (rt : Runtime E) (conf : ExporterConfig)
    (u : URL) (hostname : GoString) (ips : List IP)
    (hpre1 : HasPrefix (rt.ToLower conf.Endpoint) (lit "https://") = false)
    (hpre2 : HasPrefix (rt.ToLower conf.Endpoint) (lit "http://") = false)
    (hparse : Parse rt.ToLower (rt.ToLower conf.Endpoint) = .ok u)
    (hhost : probeHostname rt (rt.ToLower conf.Endpoint) = .ok hostname)
    (hlook : rt.LookupIP hostname = .ok ips) :
    ∃ call, CreateExporter rt conf = .ok call ∧ call.isHttp = false
      ∧ (call.insecure = true ↔ ∀ ip ∈ ips, ip.IsLoopback = true)
      ∧ (call.insecure = false ↔ ∃ ip ∈ ips, ip.IsLoopback = false) := by
  rw [CreateExporter_grpc rt conf u hpre1 hpre2 hparse,
    isLoopbackAddress_ok rt _ hostname ips hhost hlook]
  have key : (ExporterCall.otlpgrpcNew
      ([GrpcOption.WithEndpoint (rt.ToLower conf.Endpoint)]
        ++ (if (ips.all (fun ip => ip.IsLoopback)) = true then [GrpcOption.WithInsecure] else [])
        ++ [GrpcOption.WithHeaders conf.Headers])).insecure
      = ips.all (fun ip => ip.IsLoopback) := by
    cases hall : ips.all (fun ip => ip.IsLoopback) <;> simp [ExporterCall.insecure]
  refine ⟨_, rfl, rfl, ?_, ?_⟩
  · rw [key, List.all_eq_true]
  · rw [key]
    constructor
    · intro hall
      by_contra hne
      push_neg at hne
      have : ips.all (fun ip => ip.IsLoopback) = true :=
        List.all_eq_true.mpr (fun x hx => by simpa using hne x hx)
      rw [this] at hall
      cases hall
    · rintro ⟨x, hx, hx2⟩
      cases hall : ips.all (fun ip => ip.IsLoopback)
      · rfl
      · have := List.all_eq_true.mp hall x hx
        simp [hx2] at this

/-- A bare host:port whose one address is public gets a gRPC call without
`WithInsecure`. -/
theorem public_host_port_is_secure :
    CreateExporter sampleRuntime { Endpoint := lit "collector.example.com:4317", Headers := [] }
      = .ok (.otlpgrpcNew [.WithEndpoint (lit "collector.example.com:4317"), .WithHeaders []]) :=
  rfl

/-- C9: when the lower-cased endpoint parses, does not begin with `https://`
or `http://`, and `net.LookupIP` fails with `err` on the hostname
`isLoopbackAddress` works out, `CreateExporter` returns that error and makes
no constructor call. -/
theorem c9_lookup_failure_is_returned {E : Type} (rt : Runtime E) (conf : ExporterConfig)
    (u : URL) (hostname : GoString) (err : E)
    (hpre1 : HasPrefix (rt.ToLower conf.Endpoint) (lit "https://") = false)
    (hpre2 : HasPrefix (rt.ToLower conf.Endpoint) (lit "http://") = false)
    (hparse : Parse rt.ToLower (rt.ToLower conf.Endpoint) = .ok u)
    (hhost : probeHostname rt (rt.ToLower conf.Endpoint) = .ok hostname)
    (hlook : rt.LookupIP hostname = .error err) :
    CreateExporter rt conf = .error (.lookup err) := by
  rw [CreateExporter_grpc rt conf u hpre1 hpre2 hparse,
    isLoopbackAddress_lookup_error rt _ hostname err hhost hlook]

/-- C9 at a host the resolver does not know. -/
theorem c9_witness :
    CreateExporter sampleRuntime { Endpoint := lit "unknown.example.org:4317", Headers := [] }
      = .error (.lookup 0) :=
  c9_lookup_failure_is_returned sampleRuntime
    { Endpoint := lit "unknown.example.org:4317", Headers := [] }
    { URL.zero with Scheme := lit "unknown.example.org", Opaque := lit "4317" }
    (lit "unknown.example.org") 0 rfl rfl rfl rfl rfl

/-- C10: every constructor call `CreateExporter` makes carries exactly one
header mapping, `conf.Headers` itself; and two configurations with the same
endpoint and different headers give either the same error, or two calls with
the same transport, host:port, URL path and security. -/
theorem c10_headers_passed_unchanged {E : Type} (rt : Runtime E) (endpoint : GoString)
    (headers headers2 : HeaderMap) :
    (∀ call, CreateExporter rt { Endpoint := endpoint, Headers := headers } = .ok call →
        call.headers = [headers])
    ∧ (match CreateExporter rt { Endpoint := endpoint, Headers := headers },
             CreateExporter rt { Endpoint := endpoint, Headers := headers2 } with
       | .ok c1, .ok c2 =>
           c1.isHttp = c2.isHttp ∧ c1.endpoints = c2.endpoints
             ∧ c1.urlPaths = c2.urlPaths ∧ c1.insecure = c2.insecure
       | .error e1, .error e2 => e1 = e2
       | _, _ => False) := by
  cases hparse : Parse rt.ToLower (rt.ToLower endpoint) with
  | error err =>
    rw [CreateExporter_parse_error rt ⟨endpoint, headers⟩ err hparse,
      CreateExporter_parse_error rt ⟨endpoint, headers2⟩ err hparse]
    simp
  | ok u =>
    by_cases h1 : HasPrefix (rt.ToLower endpoint) (lit "https://") = true
    · rw [CreateExporter_http rt ⟨endpoint, headers⟩ u (Or.inl h1) hparse,
        CreateExporter_http rt ⟨endpoint, headers2⟩ u (Or.inl h1) hparse]
      by_cases hs : u.Scheme = lit "http" <;>
        simp [ExporterCall.headers, ExporterCall.isHttp, ExporterCall.endpoints,
          ExporterCall.urlPaths, ExporterCall.insecure, hs]
    · by_cases h2 : HasPrefix (rt.ToLower endpoint) (lit "http://") = true
      · rw [CreateExporter_http rt ⟨endpoint, headers⟩ u (Or.inr h2) hparse,
          CreateExporter_http rt ⟨endpoint, headers2⟩ u (Or.inr h2) hparse]
        by_cases hs : u.Scheme = lit "http" <;>
          simp [ExporterCall.headers, ExporterCall.isHttp, ExporterCall.endpoints,
            ExporterCall.urlPaths, ExporterCall.insecure, hs]
      · rw [CreateExporter_grpc rt ⟨endpoint, headers⟩ u (by simpa using h1) (by simpa using h2) hparse,
          CreateExporter_grpc rt ⟨endpoint, headers2⟩ u (by simpa using h1) (by simpa using h2) hparse]
        cases isLoopbackAddress rt (rt.ToLower endpoint) with
        | error e => simp
        | ok b =>
          cases b <;>
            simp [ExporterCall.headers, ExporterCall.isHttp, ExporterCall.endpoints,
              ExporterCall.urlPaths, ExporterCall.insecure]

theorem isPlainHostByte_lower (c : Nat) (h : isPlainHostByte c = true) :
    isPlainHostByte (lowerByte c) = true := by
  simp only [isPlainHostByte, isAlnum, lowerByte, Bool.or_eq_true, Bool.and_eq_true,
    decide_eq_true_eq] at h ⊢
  split_ifs <;> omega

theorem isLetter_lower (c : Nat) (h : isLetter c = true) : isLetter (lowerByte c) = true := by
  simp only [isLetter, lowerByte, Bool.or_eq_true, Bool.and_eq_true, decide_eq_true_eq] at h ⊢
  split_ifs <;> omega

theorem isDigit_lower (c : Nat) (h : isDigit c = true) : lowerByte c = c := by
  simp only [isDigit, lowerByte, Bool.and_eq_true, decide_eq_true_eq] at h ⊢
  split_ifs <;> omega

theorem lowerByte_idem (c : Nat) : lowerByte (lowerByte c) = lowerByte c := by
  simp only [lowerByte]
  split_ifs <;> omega

theorem isPlainHostByte_lt (c : Nat) (h : isPlainHostByte c = true) : c < 128 := by
  simp only [isPlainHostByte, isAlnum, Bool.or_eq_true, Bool.and_eq_true,
    decide_eq_true_eq] at h
  omega

theorem isDigit_lt (c : Nat) (h : isDigit c = true) : c < 128 := by
  simp only [isDigit, Bool.and_eq_true, decide_eq_true_eq] at h
  omega

theorem ToLower_ascii (f : GoString → GoString) (s : GoString) (h : ∀ c ∈ s, c < 128) :
    ToLower f s = s.map lowerByte := by
  unfold ToLower
  have : s.all (fun c => decide (c < 128)) = true := by
    rw [List.all_eq_true]
    intro x hx
    simpa using h x hx
  simp [this]

theorem trimLeftSpace_cons (c : Nat) (cs : GoString) (h1 : asciiSpace c = false) (h2 : c < 128) :
    trimLeftSpace (c :: cs) = c :: cs := by
  unfold trimLeftSpace
  simp only [h1, Bool.false_eq_true, if_false]
  have a1 : ¬ c = 0xC2 := by omega
  have a2 : ¬ c = 0xE1 := by omega
  have a3 : ¬ c = 0xE2 := by omega
  have a4 : ¬ c = 0xE3 := by omega
  split <;> simp [a1, a2, a3, a4]

theorem trimLeftSpaceRev_cons (c : Nat) (cs : GoString) (h1 : asciiSpace c = false)
    (h2 : c < 128) : trimLeftSpaceRev (c :: cs) = c :: cs := by
  unfold trimLeftSpaceRev
  simp only [h1, Bool.false_eq_true, if_false]
  have a1 : ¬ c = 0x85 := by omega
  have a2 : ¬ c = 0xA0 := by omega
  have a3 : ¬ c = 0x80 := by omega
  have a4 : ¬ c = 0x9F := by omega
  have a5 : ¬ c = 0xA8 := by omega
  have a6 : ¬ c = 0xA9 := by omega
  have a7 : ¬ c = 0xAF := by omega
  have a8 : ¬ (0x80 ≤ c ∧ c ≤ 0x8A) := by omega
  split <;> simp [a1, a2, a3, a4, a5, a6, a7, a8]

/-- A string that starts and ends with a visible ASCII byte is its own trim. -/
theorem TrimSpace_of_ends (c d : Nat) (mid : GoString)
    (hc1 : asciiSpace c = false) (hc2 : c < 128) (hd1 : asciiSpace d = false) (hd2 : d < 128) :
    TrimSpace (c :: (mid ++ [d])) = c :: (mid ++ [d]) := by
  unfold TrimSpace
  rw [trimLeftSpace_cons c _ hc1 hc2]
  have : (c :: (mid ++ [d])).reverse = d :: (mid.reverse ++ [c]) := by simp
  rw [this, trimLeftSpaceRev_cons d _ hd1 hd2]
  simp

theorem getSchemeLoop_scan (rawURL pre cs port : GoString)
    (h : rawURL = pre ++ cs ++ 58 :: port)
    (hcs : ∀ c ∈ cs, isPlainHostByte c = true)
    (hi : pre ≠ [] ∨ ∃ c t, cs = c :: t ∧ isLetter c = true) :
    getSchemeLoop rawURL pre.length (cs ++ 58 :: port) = .ok (pre ++ cs, port) := by
  induction cs generalizing pre with
  | nil =>
    have hp : pre ≠ [] := by
      rcases hi with h1 | ⟨c, t, h1, _⟩
      · exact h1
      · cases h1
    have hl : ¬ pre.length = 0 := by
      intro h0
      exact hp (List.length_eq_zero.mp h0)
    simp only [List.nil_append, getSchemeLoop, isLetter, hl, if_false]
    simp only [List.append_nil] at h ⊢
    subst h
    simp [slice, sliceFrom]
  | cons c t ih =>
    have hc := hcs c (List.mem_cons_self _ _)
    have hrec : getSchemeLoop rawURL (pre ++ [c]).length (t ++ 58 :: port)
        = .ok ((pre ++ [c]) ++ t, port) := by
      apply ih
      · rw [h]; simp
      · intro x hx; exact hcs x (List.mem_cons_of_mem _ hx)
      · left; simp
    simp only [List.length_append, List.length_singleton, List.append_assoc,
      List.singleton_append] at hrec
    rw [List.cons_append, getSchemeLoop]
    by_cases hlet : isLetter c = true
    · simp only [hlet, if_true]
      exact hrec
    · simp only [hlet, Bool.false_eq_true, if_false]
      have hcond : (48 ≤ c ∧ c ≤ 57) ∨ c = 43 ∨ c = 45 ∨ c = 46 := by
        simp only [isPlainHostByte, isAlnum, isLetter, Bool.or_eq_true, Bool.and_eq_true,
          decide_eq_true_eq] at hc hlet
        omega
      have hl : ¬ pre.length = 0 := by
        intro h0
        have hpre : pre = [] := List.length_eq_zero.mp h0
        rcases hi with h1 | ⟨c2, t2, h1, h2⟩
        · exact h1 hpre
        · injection h1 with h1 _
          subst h1
          exact hlet h2
      simp only [hcond, hl, if_true, if_false]
      exact hrec

theorem getScheme_host_port (host port : GoString)
    (hfirst : ∃ c t, host = c :: t ∧ isLetter c = true)
    (hhost : ∀ c ∈ host, isPlainHostByte c = true) :
    getScheme (host ++ 58 :: port) = .ok (host, port) := by
  have := getSchemeLoop_scan (host ++ 58 :: port) [] host port (by simp) hhost (Or.inr hfirst)
  simpa [getScheme] using this

theorem lit_question : lit "?" = [63] := by decide
theorem lit_slash : lit "/" = [47] := by decide

theorem Cut_of_not_mem (s : GoString) (b : Nat) (h : b ∉ s) : Cut s [b] = (s, [], false) := by
  simp [Cut, indexOf_byte_of_not_mem b s h]

theorem hostPort_byte (host port : GoString) (hhost : ∀ c ∈ host, isPlainHostByte c = true)
    (hport : ∀ c ∈ port, isDigit c = true) :
    ∀ c ∈ host ++ 58 :: port, 45 ≤ c ∧ c ≤ 122 ∧ c ≠ 47 ∧ c ≠ 63 := by
  intro c hc
  rcases List.mem_append.mp hc with h | h
  · have := hhost c h
    simp only [isPlainHostByte, isAlnum, Bool.or_eq_true, Bool.and_eq_true,
      decide_eq_true_eq] at this
    omega
  · rcases List.mem_cons.mp h with h | h
    · omega
    · have := hport c h
      simp only [isDigit, Bool.and_eq_true, decide_eq_true_eq] at this
      omega

/-- What `url.Parse` makes of a bare `host:port` whose host starts with a letter: a URL
with the host as its scheme and the port as its opaque part. -/
theorem Parse_host_port {E : Type} (rt : Runtime E) (host port : GoString)
    (hfirst : ∃ c t, host = c :: t ∧ isLetter c = true)
    (hhost : ∀ c ∈ host, isPlainHostByte c = true)
    (hne : port ≠ []) (hport : ∀ c ∈ port, isDigit c = true) :
    Parse rt.ToLower (host ++ 58 :: port)
      = .ok { URL.zero with Scheme := host.map lowerByte, Opaque := port } := by
  have hb := hostPort_byte host port hhost hport
  have h35 : 35 ∉ host ++ 58 :: port := fun h => by have := hb 35 h; omega
  have h63 : 63 ∉ port := fun h => by
    have := hb 63 (List.mem_append_right _ (List.mem_cons_of_mem _ h)); omega
  have hctl : stringContainsCTLByte (host ++ 58 :: port) = false := by
    unfold stringContainsCTLByte
    rw [List.any_eq_false]
    intro x hx
    have := hb x hx
    simp only [Bool.or_eq_true, decide_eq_true_eq]
    omega
  have hstar : ¬ host ++ 58 :: port = lit "*" := by
    intro h
    have : (host ++ 58 :: port).length = 1 := by rw [h]; rfl
    obtain ⟨c, t, hct, _⟩ := hfirst
    subst hct
    simp at this
  have hlow : rt.ToLower host = host.map lowerByte :=
    ToLower_ascii _ _ (fun c hc => isPlainHostByte_lt c (hhost c hc))
  have hsne : ¬ host.map lowerByte = [] := by
    obtain ⟨c, t, hct, _⟩ := hfirst
    subst hct
    simp
  have hcount : Count port 63 = 0 := by
    unfold Count
    exact List.count_eq_zero.mpr h63
  have hpre : HasPrefix port (lit "/") = false := by
    cases port with
    | nil => exact absurd rfl hne
    | cons d ds =>
      have := hb d (List.mem_append_right _ (List.mem_cons_of_mem _ (List.mem_cons_self _ _)))
      have h47 : ¬ 47 = d := by omega
      simp [HasPrefix, lit_slash, List.isPrefixOf, h47]
  unfold Parse
  simp only [lit_hash, Cut_of_not_mem _ 35 h35]
  unfold parse
  simp only [hctl, hstar, getScheme_host_port host port hfirst hhost, hlow, hcount,
    lit_question, Cut_of_not_mem _ 63 h63, hpre, hsne]
  have hhne : ¬ host = [] := fun h => hsne (by simp [h])
  simp [hpre, hhne, URL.zero]

theorem takeWhile_append_stop (p : Nat → Bool) (a : GoString) (b : Nat) (r : GoString)
    (ha : ∀ c ∈ a, p c = true) (hb : p b = false) :
    (a ++ b :: r).takeWhile p = a ∧ (a ++ b :: r).dropWhile p = b :: r := by
  induction a with
  | nil => simp [List.takeWhile, List.dropWhile, hb]
  | cons c t ih =>
    have hc := ha c (List.mem_cons_self _ _)
    have := ih (fun x hx => ha x (List.mem_cons_of_mem _ hx))
    simp [List.takeWhile, List.dropWhile, hc, this]

theorem isPlainHostByte_isHostByte (c : Nat) (h : isPlainHostByte c = true) :
    isHostByte c = true := by
  simp only [isPlainHostByte, isHostByte, Bool.or_eq_true, decide_eq_true_eq] at h ⊢
  tauto

theorem hpReMatch_host_port (host port : GoString) (hhne : host ≠ [])
    (hhost : ∀ c ∈ host, isPlainHostByte c = true)
    (hne : port ≠ []) (hport : ∀ c ∈ port, isDigit c = true) :
    hpReMatch (host ++ 58 :: port) = true := by
  have h58 : isHostByte 58 = false := by decide
  obtain ⟨h1, h2⟩ := takeWhile_append_stop isHostByte host 58 port
    (fun c hc => isPlainHostByte_isHostByte c (hhost c hc)) h58
  unfold hpReMatch
  rw [h1, h2]
  have hall : port.all isDigit = true := List.all_eq_true.mpr hport
  cases host with
  | nil => exact absurd rfl hhne
  | cons c t =>
    cases port with
    | nil => exact absurd rfl hne
    | cons d ds => simpa using hall

theorem SplitN2_host_port (host port : GoString) (hhost : ∀ c ∈ host, isPlainHostByte c = true) :
    (SplitN2 (host ++ 58 :: port) 58).headD [] = host := by
  have h58 : 58 ∉ host := by
    intro h
    have := hhost 58 h
    simp [isPlainHostByte, isAlnum] at this
  have hmem : 58 ∈ host ++ 58 :: port := by simp
  have htw : (host ++ 58 :: port).takeWhile (fun c => decide (c ≠ 58)) = host := by
    refine (takeWhile_append_stop _ host 58 port ?_ (by simp)).1
    intro c hc
    have : c ≠ 58 := fun e => h58 (e ▸ hc)
    simp [this]
  unfold SplitN2
  rw [indexOf_byte_of_mem 58 _ hmem, htw]
  simp

theorem HasPrefix_false_of_not_mem (s pre : GoString) (b : Nat) (hb : b ∈ pre) (hs : b ∉ s) :
    HasPrefix s pre = false := by
  cases h : HasPrefix s pre
  · rfl
  · obtain ⟨t, ht⟩ := (List.isPrefixOf_iff_prefix.mp h)
    exact absurd (ht ▸ List.mem_append_left t hb) hs

theorem probeHostname_host_port {E : Type} (rt : Runtime E) (host port : GoString)
    (hfirst : ∃ c t, host = c :: t ∧ isLetter c = true)
    (hhost : ∀ c ∈ host, isPlainHostByte c = true)
    (hne : port ≠ []) (hport : ∀ c ∈ port, isDigit c = true) :
    probeHostname rt (host ++ 58 :: port) = .ok host := by
  have htrim : TrimSpace (host ++ 58 :: port) = host ++ 58 :: port := by
    obtain ⟨c, t, hct, hc⟩ := hfirst
    obtain ⟨d, ds, hd⟩ : ∃ d ds, port = ds ++ [d] := by
      rcases List.eq_nil_or_concat port with h | ⟨ds, d, h⟩
      · exact absurd h hne
      · exact ⟨d, ds, by simpa using h⟩
    have hdd : isDigit d = true := hport d (by rw [hd]; simp)
    subst hct hd
    have e1 : c :: t ++ 58 :: (ds ++ [d]) = c :: ((t ++ 58 :: ds) ++ [d]) := by simp
    rw [e1]
    apply TrimSpace_of_ends
    · simp only [isLetter, Bool.or_eq_true, Bool.and_eq_true, decide_eq_true_eq] at hc
      simp only [asciiSpace, Bool.or_eq_false_iff, decide_eq_false_iff_not]
      omega
    · simp only [isLetter, Bool.or_eq_true, Bool.and_eq_true, decide_eq_true_eq] at hc
      omega
    · simp only [isDigit, Bool.and_eq_true, decide_eq_true_eq] at hdd
      simp only [asciiSpace, Bool.or_eq_false_iff, decide_eq_false_iff_not]
      omega
    · exact isDigit_lt d hdd
  have hhne : host ≠ [] := by
    obtain ⟨c, t, hct, _⟩ := hfirst
    rw [hct]; simp
  unfold probeHostname
  simp only [htrim, hpReMatch_host_port host port hhne hhost hne hport, if_true,
    SplitN2_host_port host port hhost]

theorem lit_at : lit "@" = [64] := by decide
theorem lit_lbracket : lit "[" = [91] := by decide
theorem lit_SS : lit "//" = [47, 47] := by decide
theorem lit_SSS : lit "///" = [47, 47, 47] := by decide

theorem lastIndexOf_byte_of_not_mem (b : Nat) (s : GoString) (h : b ∉ s) :
    lastIndexOf [b] s = none := by
  induction s with
  | nil => simp [lastIndexOf]
  | cons c cs ih =>
    have hc : ¬ b = c := fun e => h (by simp [e])
    have hmem : b ∉ cs := fun e => h (List.mem_cons_of_mem _ e)
    simp [lastIndexOf, List.isPrefixOf, hc, ih hmem]

theorem lastIndexOf_byte_append (b : Nat) (a r : GoString) (h : b ∉ r) :
    lastIndexOf [b] (a ++ b :: r) = some a.length := by
  induction a with
  | nil => simp [lastIndexOf, lastIndexOf_byte_of_not_mem b r h, List.isPrefixOf]
  | cons c t ih => simp [lastIndexOf, ih]

theorem LastIndex_of_not_mem (b : Nat) (s : GoString) (h : b ∉ s) : LastIndex s [b] = -1 := by
  simp [LastIndex, lastIndexOf_byte_of_not_mem b s h]

theorem unescapeCheck_plain (mode : encoding) (s : GoString)
    (hpct : 37 ∉ s)
    (hhost : mode = .encodeHost ∨ mode = .encodeZone → ∀ c ∈ s, shouldEscapeHost c = false) :
    unescapeCheck mode s = .ok () := by
  induction s with
  | nil => rfl
  | cons c cs ih =>
    have hc : ¬ c = 37 := fun e => hpct (by simp [e])
    have ih2 := ih (fun e => hpct (List.mem_cons_of_mem _ e))
      (fun hm x hx => hhost hm x (List.mem_cons_of_mem _ hx))
    unfold unescapeCheck
    simp only [hc, if_false]
    by_cases hm : mode = .encodeHost ∨ mode = .encodeZone
    · have := hhost hm c (List.mem_cons_self _ _)
      simp [this, ih2]
    · simp [hm, ih2]

theorem unescapeBytes_plain (mode : encoding) (s : GoString) (hpct : 37 ∉ s)
    (hq : mode ≠ .encodeQueryComponent) : unescapeBytes mode s = s := by
  induction s with
  | nil => rfl
  | cons c cs ih =>
    have hc : ¬ c = 37 := fun e => hpct (by simp [e])
    have ih2 := ih (fun e => hpct (List.mem_cons_of_mem _ e))
    unfold unescapeBytes
    by_cases h43 : c = 43
    · simp [h43, hq, ih2]
    · simp [hc, h43, ih2]

theorem unescape_plain (mode : encoding) (s : GoString) (hpct : 37 ∉ s)
    (hq : mode ≠ .encodeQueryComponent)
    (hhost : mode = .encodeHost ∨ mode = .encodeZone → ∀ c ∈ s, shouldEscapeHost c = false) :
    unescape s mode = .ok s := by
  unfold unescape
  rw [unescapeCheck_plain mode s hpct hhost, unescapeBytes_plain mode s hpct hq]

theorem plainAuthority_byte (authority host port : GoString)
    (h : isPlainAuthorityOf authority host port) :
    ∀ c ∈ authority, isPlainHostByte c = true ∨ c = 58 := by
  obtain ⟨_, hh, hp, ha⟩ := h
  intro c hc
  rcases ha with ha | ha
  · subst ha; exact Or.inl (hh c hc)
  · subst ha
    rcases List.mem_append.mp hc with h1 | h1
    · exact Or.inl (hh c h1)
    · rcases List.mem_cons.mp h1 with h2 | h2
      · exact Or.inr h2
      · left
        have := hp c h2
        simp only [isDigit, Bool.and_eq_true, decide_eq_true_eq] at this
        simp only [isPlainHostByte, isAlnum, Bool.or_eq_true, Bool.and_eq_true,
          decide_eq_true_eq]
        omega

theorem plainAuthority_range (authority host port : GoString)
    (h : isPlainAuthorityOf authority host port) :
    ∀ c ∈ authority, 45 ≤ c ∧ c ≤ 122 ∧ c ≠ 47 ∧ c ≠ 63 ∧ c ≠ 64 ∧ c ≠ 91 := by
  intro c hc
  rcases plainAuthority_byte authority host port h c hc with h1 | h1
  · simp only [isPlainHostByte, isAlnum, Bool.or_eq_true, Bool.and_eq_true,
      decide_eq_true_eq] at h1
    omega
  · omega

theorem shouldEscapeHost_plain (c : Nat) (h : isPlainHostByte c = true ∨ c = 58) :
    shouldEscapeHost c = false := by
  rcases h with h | h
  · unfold shouldEscapeHost
    by_cases ha : isAlnum c = true
    · simp [ha]
    · have : c = 46 ∨ c = 45 := by
        simp only [isPlainHostByte, Bool.or_eq_true, decide_eq_true_eq] at h
        tauto
      rcases this with h1 | h1 <;> subst h1 <;> decide
  · subst h; decide

theorem parseHost_plain (authority host port : GoString)
    (h : isPlainAuthorityOf authority host port) : parseHost authority = .ok authority := by
  have hr := plainAuthority_range authority host port h
  have hun : unescape authority .encodeHost = .ok authority := by
    apply unescape_plain
    · intro hm; have := hr 37 hm; omega
    · decide
    · intro _ c hc
      exact shouldEscapeHost_plain c (plainAuthority_byte authority host port h c hc)
  obtain ⟨hne, hh, hp, ha⟩ := h
  have hbr : HasPrefix authority (lit "[") = false := by
    apply HasPrefix_false_of_not_mem _ _ 91 (by decide)
    intro hm; have := hr 91 hm; omega
  unfold parseHost
  simp only [hbr, Bool.false_eq_true, if_false, hun]
  rcases ha with ha | ha
  · have h58 : 58 ∉ authority := by
      rw [ha]
      intro hm
      have := hh 58 hm
      simp [isPlainHostByte, isAlnum] at this
    simp [lit_colon, LastIndex_of_not_mem 58 authority h58]
  · have h58 : 58 ∉ port := by
      intro hm
      have := hp 58 hm
      simp [isDigit] at this
    have hv : validOptionalPort (58 :: port) = true := by
      simp only [validOptionalPort, decide_True, Bool.true_and, List.all_eq_true]
      intro x hx
      have := hp x hx
      simpa [isDigit] using this
    subst ha
    simp [lit_colon, LastIndex, lastIndexOf_byte_append 58 host port h58, sliceFrom, hv]

theorem parseAuthority_plain (authority host port : GoString)
    (h : isPlainAuthorityOf authority host port) :
    parseAuthority authority = .ok (none, authority) := by
  have hr := plainAuthority_range authority host port h
  have h64 : 64 ∉ authority := fun hm => by have := hr 64 hm; omega
  unfold parseAuthority
  simp [lit_at, LastIndex_of_not_mem 64 authority h64, parseHost_plain authority host port h]

theorem lit_colonSS : lit "://" = [58, 47, 47] := by decide

/-- What `url.Parse` makes of `scheme://authority` followed by a path, for a
plain authority and a path without escapes, query or fragment: the lowered
scheme, the authority as `Host` and the path as `Path`, each as written. -/
theorem Parse_plain_url (lower : GoString → GoString)
    (scheme authority host port path : GoString)
    (hs1 : ∃ c t, scheme = c :: t ∧ isLetter c = true)
    (hs2 : ∀ c ∈ scheme, isPlainHostByte c = true)
    (ha : isPlainAuthorityOf authority host port)
    (hp1 : path = [] ∨ ∃ t, path = 47 :: t)
    (hp2 : ∀ c ∈ path, 32 ≤ c ∧ c ≠ 127 ∧ c ≠ 35 ∧ c ≠ 37 ∧ c ≠ 63) :
    Parse lower (scheme ++ lit "://" ++ authority ++ path)
      = .ok { URL.zero with Scheme := lower scheme, Host := authority, Path := path } := by
  have hr := plainAuthority_range authority host port ha
  have hane : authority ≠ [] := by
    obtain ⟨hne, _, _, hor⟩ := ha
    rcases hor with h | h <;> rw [h]
    · exact hne
    · simp
  have hshape : scheme ++ lit "://" ++ authority ++ path
      = scheme ++ 58 :: (47 :: 47 :: (authority ++ path)) := by
    simp [lit_colonSS]
  have hbyte : ∀ c ∈ scheme ++ 58 :: (47 :: 47 :: (authority ++ path)),
      32 ≤ c ∧ c ≠ 127 ∧ c ≠ 35 ∧ c ≠ 63 := by
    intro c hc
    simp only [List.mem_append, List.mem_cons] at hc
    rcases hc with h | h | h | h | h | h
    · have := hs2 c h
      simp only [isPlainHostByte, isAlnum, Bool.or_eq_true, Bool.and_eq_true,
        decide_eq_true_eq] at this
      omega
    · omega
    · omega
    · omega
    · have := hr c h; omega
    · have := hp2 c h; omega
  have h35 : 35 ∉ scheme ++ 58 :: (47 :: 47 :: (authority ++ path)) :=
    fun h => by have := hbyte 35 h; omega
  have h63 : 63 ∉ 47 :: 47 :: (authority ++ path) := fun h => by
    have := hbyte 63 (List.mem_append_right _ (List.mem_cons_of_mem _ h)); omega
  have hctl : stringContainsCTLByte (scheme ++ 58 :: (47 :: 47 :: (authority ++ path))) = false := by
    unfold stringContainsCTLByte
    rw [List.any_eq_false]
    intro x hx
    have := hbyte x hx
    simp only [Bool.or_eq_true, decide_eq_true_eq]
    omega
  have hstar : ¬ scheme ++ 58 :: (47 :: 47 :: (authority ++ path)) = lit "*" := by
    intro h
    have : (scheme ++ 58 :: (47 :: 47 :: (authority ++ path))).length = 1 := by rw [h]; rfl
    simp at this
    omega
  have hcount : Count (47 :: 47 :: (authority ++ path)) 63 = 0 := by
    unfold Count
    exact List.count_eq_zero.mpr h63
  have hpre1 : HasPrefix (47 :: 47 :: (authority ++ path)) [47] = true := by
    simp [HasPrefix, List.isPrefixOf]
  have hpre2 : HasPrefix (47 :: 47 :: (authority ++ path)) [47, 47] = true := by
    simp [HasPrefix, List.isPrefixOf]
  have hpre3 : HasPrefix (47 :: 47 :: (authority ++ path)) [47, 47, 47] = false := by
    cases hau : authority with
    | nil => exact absurd hau hane
    | cons a t =>
      have := hr a (by rw [hau]; exact List.mem_cons_self _ _)
      have h47 : ¬ 47 = a := by omega
      simp [HasPrefix, List.isPrefixOf, h47]
  have h47 : 47 ∉ authority := fun h => by have := hr 47 h; omega
  have h37 : 37 ∉ path := fun h => by have := hp2 37 h; omega
  have hunp : unescape path .encodePath = .ok path :=
    unescape_plain _ _ h37 (by decide) (by intro h; rcases h with h | h <;> cases h)
  have hauth := parseAuthority_plain authority host port ha
  rw [hshape]
  unfold Parse
  simp only [lit_hash, Cut_of_not_mem _ 35 h35]
  unfold parse
  simp only [lit_slash, lit_SS, lit_SSS, hctl, hstar, getScheme_host_port scheme _ hs1 hs2,
    hcount, lit_question, Cut_of_not_mem _ 63 h63, hpre1, hpre2, hpre3]
  simp only [sliceFrom, List.drop_succ_cons, List.drop_zero]
  rcases hp1 with hp | ⟨t, hp⟩
  · subst hp
    simp only [List.append_nil] at *
    simp [Index, indexOf_byte_of_not_mem 47 authority h47, hauth, unescape, unescapeCheck,
      unescapeBytes, URL.zero, hpre1, hpre2, hpre3]
  · subst hp
    have hmem : 47 ∈ authority ++ 47 :: t := by simp
    have htw : (authority ++ 47 :: t).takeWhile (fun c => decide (c ≠ 47)) = authority := by
      refine (takeWhile_append_stop _ authority 47 t ?_ (by simp)).1
      intro c hc
      have : c ≠ 47 := fun e => h47 (e ▸ hc)
      simp [this]
    obtain ⟨htw2, hdw2⟩ := takeWhile_append_stop (fun c => !decide (c = 47)) authority 47 t
      (by intro c hc
          have : c ≠ 47 := fun e => h47 (e ▸ hc)
          simp [this]) (by simp)
    simp [Index, indexOf_byte_of_mem 47 _ hmem, htw, slice, hauth, hunp, URL.zero,
      hpre1, hpre2, hpre3, take_takeWhile_length, drop_takeWhile_length, htw2, hdw2]

theorem Port_plain (authority host port : GoString) (h : isPlainAuthorityOf authority host port)
    (u : URL) (hu : u.Host = authority) :
    (authority = host → u.Port = []) ∧ (authority = host ++ 58 :: port → u.Port = port) := by
  obtain ⟨hne, hh, hp, _⟩ := h
  have h58h : 58 ∉ host := by
    intro hm
    have := hh 58 hm
    simp [isPlainHostByte, isAlnum] at this
  constructor
  · intro ha
    unfold URL.Port splitHostPort
    rw [hu, ha]
    simp [lit_colon, LastIndex_of_not_mem 58 host h58h]
  · intro ha
    have h58 : 58 ∉ port := by
      intro hm
      have := hp 58 hm
      simp [isDigit] at this
    have hv : validOptionalPort (58 :: port) = true := by
      simp only [validOptionalPort, decide_True, Bool.true_and, List.all_eq_true]
      intro x hx
      have := hp x hx
      simpa [isDigit] using this
    unfold URL.Port splitHostPort
    rw [hu, ha]
    simp [lit_colon, LastIndex, lastIndexOf_byte_append 58 host port h58, sliceFrom, hv]

theorem isPlainAuthorityOf_lower (authority host port : GoString)
    (h : isPlainAuthorityOf authority host port) :
    isPlainAuthorityOf (authority.map lowerByte) (host.map lowerByte) port := by
  obtain ⟨hne, hh, hp, ha⟩ := h
  have hportmap : port.map lowerByte = port := by
    rw [List.map_congr_left (fun c hc => isDigit_lower c (hp c hc))]
    simp
  refine ⟨by simpa using hne, ?_, hp, ?_⟩
  · intro c hc
    obtain ⟨x, hx, rfl⟩ := List.mem_map.mp hc
    exact isPlainHostByte_lower x (hh x hx)
  · rcases ha with ha | ha
    · left; rw [ha]
    · right; rw [ha]; simp [hportmap, lowerByte]

theorem lowerByte_eq_cases (c : Nat) : lowerByte c = c ∨ (65 ≤ c ∧ c ≤ 90 ∧ lowerByte c = c + 32) := by
  unfold lowerByte
  split_ifs with h
  · right; exact ⟨h.1, h.2, rfl⟩
  · left; rfl

theorem scheme_bytes (sch : GoString)
    (hsch : sch.map lowerByte = lit "http" ∨ sch.map lowerByte = lit "https") :
    (∀ c ∈ sch, isLetter c = true) ∧ sch ≠ [] := by
  constructor
  · intro c hc
    have hm : lowerByte c ∈ sch.map lowerByte := List.mem_map.mpr ⟨c, hc, rfl⟩
    have hl : lowerByte c ∈ [104, 116, 116, 112, 115] := by
      rcases hsch with h | h <;> rw [h] at hm
      · rw [lit_http] at hm; simp at hm ⊢; tauto
      · rw [lit_https] at hm; simpa using hm
    simp only [List.mem_cons, List.mem_singleton, List.not_mem_nil, or_false] at hl
    simp only [isLetter, Bool.or_eq_true, Bool.and_eq_true, decide_eq_true_eq]
    rcases lowerByte_eq_cases c with h | ⟨h1, h2, h3⟩
    · rw [h] at hl; omega
    · omega
  · intro h0
    rw [h0] at hsch
    rcases hsch with h | h <;> simp [lit_http, lit_https] at h

/-- The call `CreateExporter` makes for a plainly written `http` or `https`
URL, in terms of the text of the endpoint: what is handed over is the
lower-cased text; when the authority has no colon, or nothing after it, the
default port is appended to the authority as written; without a path the
default path is used. -/
theorem CreateExporter_plain_url {E : Type} (rt : Runtime E)
    (sch authority host port path : GoString) (headers : HeaderMap)
    (hsch : sch.map lowerByte = lit "http" ∨ sch.map lowerByte = lit "https")
    (ha : isPlainAuthorityOf authority host port)
    (hp1 : path = [] ∨ ∃ t, path = 47 :: t)
    (hp2 : ∀ c ∈ path, 32 ≤ c ∧ c < 127 ∧ c ≠ 35 ∧ c ≠ 37 ∧ c ≠ 63) :
    CreateExporter rt { Endpoint := sch ++ lit "://" ++ authority ++ path, Headers := headers }
      = .ok (.otlphttpNew
          ([.WithEndpoint
              (if authority = host ∨ port = [] then
                authority.map lowerByte
                  ++ (if sch.map lowerByte = lit "https" then lit ":443" else lit ":80")
               else authority.map lowerByte),
            .WithURLPath (if path = [] then lit "/v1/traces" else path.map lowerByte)]
            ++ (if sch.map lowerByte = lit "http" then [.WithInsecure] else [])
            ++ [.WithHeaders headers])) := by
  obtain ⟨hsl, hsne⟩ := scheme_bytes sch hsch
  have hr := plainAuthority_range authority host port ha
  have hascii : ∀ c ∈ sch ++ lit "://" ++ authority ++ path, c < 128 := by
    intro c hc
    simp only [lit_colonSS, List.mem_append, List.mem_cons, List.not_mem_nil, or_false] at hc
    rcases hc with ((h | h) | h) | h
    · have := hsl c h
      simp only [isLetter, Bool.or_eq_true, Bool.and_eq_true, decide_eq_true_eq] at this
      omega
    · omega
    · have := hr c h; omega
    · have := hp2 c h; omega
  have hlow : rt.ToLower (sch ++ lit "://" ++ authority ++ path)
      = sch.map lowerByte ++ lit "://" ++ authority.map lowerByte ++ path.map lowerByte := by
    rw [Runtime.ToLower, ToLower_ascii _ _ hascii]
    simp [lit_colonSS, lowerByte]
  have ha2 := isPlainAuthorityOf_lower authority host port ha
  have hs1 : ∃ c t, sch.map lowerByte = c :: t ∧ isLetter c = true := by
    cases hsc : sch with
    | nil => exact absurd hsc hsne
    | cons c t =>
      exact ⟨lowerByte c, t.map lowerByte, by simp,
        isLetter_lower c (hsl c (by rw [hsc]; exact List.mem_cons_self _ _))⟩
  have hs2 : ∀ c ∈ sch.map lowerByte, isPlainHostByte c = true := by
    intro c hc
    obtain ⟨x, hx, rfl⟩ := List.mem_map.mp hc
    have := isLetter_lower x (hsl x hx)
    simp only [isLetter, Bool.or_eq_true, Bool.and_eq_true, decide_eq_true_eq] at this
    simp only [isPlainHostByte, isAlnum, Bool.or_eq_true, Bool.and_eq_true, decide_eq_true_eq]
    omega
  have hp1l : path.map lowerByte = [] ∨ ∃ t, path.map lowerByte = 47 :: t := by
    rcases hp1 with h | ⟨t, h⟩
    · left; simp [h]
    · right; exact ⟨t.map lowerByte, by simp [h, lowerByte]⟩
  have hp2l : ∀ c ∈ path.map lowerByte, 32 ≤ c ∧ c ≠ 127 ∧ c ≠ 35 ∧ c ≠ 37 ∧ c ≠ 63 := by
    intro c hc
    obtain ⟨x, hx, rfl⟩ := List.mem_map.mp hc
    have := hp2 x hx
    rcases lowerByte_eq_cases x with h | ⟨h1, h2, h3⟩
    · rw [h]; omega
    · omega
  have hsl2 : rt.ToLower (sch.map lowerByte) = sch.map lowerByte := by
    rcases hsch with h | h <;> rw [h]
    · exact ToLower_http rt
    · exact ToLower_https rt
  have hparse := Parse_plain_url rt.ToLower (sch.map lowerByte) (authority.map lowerByte)
    (host.map lowerByte) port (path.map lowerByte) hs1 hs2 ha2 hp1l hp2l
  rw [hsl2] at hparse
  have hpre : HasPrefix (rt.ToLower (sch ++ lit "://" ++ authority ++ path)) (lit "https://") = true
      ∨ HasPrefix (rt.ToLower (sch ++ lit "://" ++ authority ++ path)) (lit "http://") = true := by
    rw [hlow]
    rcases hsch with h | h
    · right
      rw [h, HasPrefix_iff]
      exact ⟨authority.map lowerByte ++ path.map lowerByte, by
        simp [lit_http, lit_httpSS, lit_colonSS]⟩
    · left
      rw [h, HasPrefix_iff]
      exact ⟨authority.map lowerByte ++ path.map lowerByte, by
        simp [lit_https, lit_httpsSS, lit_colonSS]⟩
  have hcall := CreateExporter_http rt
    { Endpoint := sch ++ lit "://" ++ authority ++ path, Headers := headers } _ hpre
    (by rw [hlow]; exact hparse)
  rw [hcall]
  obtain ⟨hport1, hport2⟩ := Port_plain (authority.map lowerByte) (host.map lowerByte) port ha2
    { URL.zero with Scheme := sch.map lowerByte, Host := authority.map lowerByte,
                    Path := path.map lowerByte } rfl
  have hpathnil : path.map lowerByte = [] ↔ path = [] := by simp
  have hcond :
      URL.Port
        { URL.zero with
          Scheme := sch.map lowerByte
          Host := authority.map lowerByte
          Path := path.map lowerByte } = []
      ↔ (authority = host ∨ port = []) := by
    obtain ⟨_, _, _, hor⟩ := ha
    rcases hor with h | h
    · exact ⟨fun _ => Or.inl h, fun _ => hport1 (by rw [h])⟩
    · have hl : authority.map lowerByte = host.map lowerByte ++ 58 :: port := by
        obtain ⟨_, _, _, hor2⟩ := ha2
        rcases hor2 with h2 | h2
        · exfalso
          have : (authority.map lowerByte).length = (host.map lowerByte).length := by rw [h2]
          rw [h] at this
          simp at this
        · exact h2
      have := hport2 hl
      rw [this]
      constructor
      · intro h0; exact Or.inr h0
      · rintro (h0 | h0)
        · exfalso
          have : authority.length = host.length := by rw [h0]
          rw [h] at this
          simp at this
        · exact h0
  simp only [hpathnil]
  by_cases hc : authority = host ∨ port = []
  · rw [if_pos (hcond.mpr hc), if_pos hc]
    by_cases hs : sch.map lowerByte = lit "https" <;> simp [hs]
  · rw [if_neg (fun h => hc (hcond.mp h)), if_neg hc]

/-- C7, amended: for an endpoint `host:port` whose host starts with a letter
and holds only letters, digits, dots and hyphens, and whose port is one or
more digits, `CreateExporter` parses the lower-cased endpoint without error,
takes the gRPC branch, looks up the lower-cased host, and (unless the lookup
fails) hands the gRPC transport the lower-cased endpoint as host:port, with
`WithInsecure` exactly when all addresses are loopback. -/
theorem c7_bare_host_port_grpc_lowered {E : Type} (rt : Runtime E) (host port : GoString)
    (headers : HeaderMap)
    (hfirst : ∃ c t, host = c :: t ∧ isLetter c = true)
    (hhost : ∀ c ∈ host, isPlainHostByte c = true)
    (hne : port ≠ []) (hport : ∀ c ∈ port, isDigit c = true) :
    rt.ToLower (host ++ 58 :: port) = (host ++ 58 :: port).map lowerByte
    ∧ CreateExporter rt { Endpoint := host ++ 58 :: port, Headers := headers }
      = match rt.LookupIP (host.map lowerByte) with
        | .error err => .error (.lookup err)
        | .ok ips => .ok (.otlpgrpcNew
            ([.WithEndpoint ((host ++ 58 :: port).map lowerByte)]
              ++ (if ips.all (fun ip => ip.IsLoopback) then [.WithInsecure] else [])
              ++ [.WithHeaders headers])) := by
  have hlow : rt.ToLower (host ++ 58 :: port) = (host ++ 58 :: port).map lowerByte := by
    apply ToLower_ascii
    intro c hc
    have := hostPort_byte host port hhost hport c hc
    omega
  have hportmap : port.map lowerByte = port := by
    rw [List.map_congr_left (fun c hc => isDigit_lower c (hport c hc))]
    simp
  have hshape : (host ++ 58 :: port).map lowerByte = host.map lowerByte ++ 58 :: port := by
    simp [hportmap, lowerByte]
  have hfirst2 : ∃ c t, host.map lowerByte = c :: t ∧ isLetter c = true := by
    obtain ⟨c, t, hct, hc⟩ := hfirst
    exact ⟨lowerByte c, t.map lowerByte, by simp [hct], isLetter_lower c hc⟩
  have hhost2 : ∀ c ∈ host.map lowerByte, isPlainHostByte c = true := by
    intro c hc
    obtain ⟨x, hx, rfl⟩ := List.mem_map.mp hc
    exact isPlainHostByte_lower x (hhost x hx)
  have hparse := Parse_host_port rt (host.map lowerByte) port hfirst2 hhost2 hne hport
  have hb := hostPort_byte (host.map lowerByte) port hhost2 hport
  have h47 : 47 ∉ host.map lowerByte ++ 58 :: port := fun h => by have := hb 47 h; omega
  have hprobe := probeHostname_host_port rt (host.map lowerByte) port hfirst2 hhost2 hne hport
  refine ⟨hlow, ?_⟩
  rw [CreateExporter_grpc rt _ _
    (by simp only [hlow, hshape]; exact HasPrefix_false_of_not_mem _ _ 47 (by decide) h47)
    (by simp only [hlow, hshape]; exact HasPrefix_false_of_not_mem _ _ 47 (by decide) h47)
    (by simp only [hlow, hshape]; exact hparse)]
  simp only [hlow, hshape]
  cases hl : rt.LookupIP (host.map lowerByte) with
  | error err =>
    rw [isLoopbackAddress_lookup_error rt _ _ err hprobe hl]
  | ok ips =>
    rw [isLoopbackAddress_ok rt _ _ ips hprobe hl]

/-- C7 at `localhost:4317`. -/
theorem c7_witness :
    sampleRuntime.ToLower (lit "localhost" ++ 58 :: lit "4317")
      = (lit "localhost" ++ 58 :: lit "4317").map lowerByte
    ∧ CreateExporter sampleRuntime { Endpoint := lit "localhost" ++ 58 :: lit "4317", Headers := [] }
      = match sampleRuntime.LookupIP ((lit "localhost").map lowerByte) with
        | .error err => .error (.lookup err)
        | .ok ips => .ok (.otlpgrpcNew
            ([.WithEndpoint ((lit "localhost" ++ 58 :: lit "4317").map lowerByte)]
              ++ (if ips.all (fun ip => ip.IsLoopback) then [.WithInsecure] else [])
              ++ [.WithHeaders []])) :=
  c7_bare_host_port_grpc_lowered sampleRuntime (lit "localhost") (lit "4317") []
    ⟨108, lit "ocalhost", by decide, by decide⟩ (by decide) (by decide) (by decide)

/-- C7 as stated fails on a host in upper case: the gRPC transport gets the
lower-cased text, not the configured endpoint. -/
theorem c7_counterexample :
    CreateExporter sampleRuntime { Endpoint := lit "LOCALHOST:4317", Headers := [] }
      = .ok (.otlpgrpcNew [.WithEndpoint (lit "localhost:4317"), .WithInsecure, .WithHeaders []])
    ∧ lit "localhost:4317" ≠ lit "LOCALHOST:4317" :=
  ⟨rfl, by decide⟩

/-- A bare host:port whose host starts with a digit does not get past
`url.Parse`: no scheme is found and the first path segment holds a colon. -/
theorem numeric_host_is_rejected :
    CreateExporter sampleRuntime { Endpoint := lit "127.0.0.1:4317", Headers := [] }
      = .error (.urlError { URL := lit "127.0.0.1:4317", Err := .firstPathSegmentColon }) := rfl

/-- C4 as stated fails twice: `http:80` parses with scheme `http` and goes to the
gRPC transport, and an authority in mixed case is handed over lower-cased,
not as given. -/
theorem c4_counterexample :
    (Parse sampleRuntime.ToLower (sampleRuntime.ToLower (lit "http:80"))
        = .ok { URL.zero with Scheme := lit "http", Opaque := lit "80" }
      ∧ CreateExporter sampleRuntime { Endpoint := lit "http:80", Headers := [] }
        = .ok (.otlpgrpcNew [.WithEndpoint (lit "http:80"), .WithHeaders []]))
    ∧ (CreateExporter sampleRuntime { Endpoint := lit "http://Collector.Example.com:5000", Headers := [] }
        = .ok (.otlphttpNew [.WithEndpoint (lit "collector.example.com:5000"),
            .WithURLPath (lit "/v1/traces"), .WithInsecure, .WithHeaders []])
      ∧ lit "collector.example.com:5000" ≠ lit "Collector.Example.com:5000") :=
  ⟨⟨rfl, rfl⟩, rfl, by decide⟩

/-- C5 as stated fails on a path in mixed case: the HTTP transport gets
`/custom`, not the path `/Custom` given in the endpoint. -/
theorem c5_counterexample :
    CreateExporter sampleRuntime
        { Endpoint := lit "http://collector.example.com:5000/Custom", Headers := [] }
      = .ok (.otlphttpNew [.WithEndpoint (lit "collector.example.com:5000"),
          .WithURLPath (lit "/custom"), .WithInsecure, .WithHeaders []])
    ∧ lit "/custom" ≠ lit "/Custom" :=
  ⟨rfl, by decide⟩

/-! ## The transport as a function of the endpoint -/

/-- Two runtimes with the same Unicode case mapping lower-case alike. -/
theorem Runtime_ToLower_congr {E : Type} (rt1 rt2 : Runtime E)
    (h : rt1.mapToLower = rt2.mapToLower) : rt1.ToLower = rt2.ToLower := by
  funext s
  simp [Runtime.ToLower, h]

/-- The hostname probed for loopback depends on the runtime through its case
mapping only. -/
theorem probeHostname_congr {E : Type} (rt1 rt2 : Runtime E)
    (h : rt1.mapToLower = rt2.mapToLower) (endpoint : GoString) :
    probeHostname rt1 endpoint = probeHostname rt2 endpoint := by
  unfold probeHostname
  rw [Runtime_ToLower_congr rt1 rt2 h]

/-- Shape of every successful result of `CreateExporter`. -/
theorem CreateExporter_ok_cases {E : Type} (rt : Runtime E) (conf : ExporterConfig)
    (call : ExporterCall) (h : CreateExporter rt conf = .ok call) :
    ∃ u, Parse rt.ToLower (rt.ToLower conf.Endpoint) = .ok u ∧
      (((HasPrefix (rt.ToLower conf.Endpoint) (lit "https://") = true
          ∨ HasPrefix (rt.ToLower conf.Endpoint) (lit "http://") = true)
        ∧ call = .otlphttpNew
          ([.WithEndpoint (if u.Port = [] then
                (if u.Scheme = lit "https" then u.Host ++ lit ":443" else u.Host ++ lit ":80")
              else u.Host),
            .WithURLPath (if u.Path = [] then lit "/v1/traces" else u.Path)]
            ++ (if u.Scheme = lit "http" then [.WithInsecure] else [])
            ++ [.WithHeaders conf.Headers]))
      ∨ (HasPrefix (rt.ToLower conf.Endpoint) (lit "https://") = false
        ∧ HasPrefix (rt.ToLower conf.Endpoint) (lit "http://") = false
        ∧ ∃ isLocal, isLoopbackAddress rt (rt.ToLower conf.Endpoint) = .ok isLocal
          ∧ call = .otlpgrpcNew
            ([.WithEndpoint (rt.ToLower conf.Endpoint)]
              ++ (if isLocal then [.WithInsecure] else [])
              ++ [.WithHeaders conf.Headers]))) := by
  cases hparse : Parse rt.ToLower (rt.ToLower conf.Endpoint) with
  | error err =>
    rw [CreateExporter_parse_error rt conf err hparse] at h
    cases h
  | ok u =>
    refine ⟨u, rfl, ?_⟩
    by_cases h1 : HasPrefix (rt.ToLower conf.Endpoint) (lit "https://") = true
    · left
      refine ⟨Or.inl h1, ?_⟩
      rw [CreateExporter_http rt conf u (Or.inl h1) hparse] at h
      injection h with h
      exact h.symm
    · by_cases h2 : HasPrefix (rt.ToLower conf.Endpoint) (lit "http://") = true
      · left
        refine ⟨Or.inr h2, ?_⟩
        rw [CreateExporter_http rt conf u (Or.inr h2) hparse] at h
        injection h with h
        exact h.symm
      · right
        have h1f : HasPrefix (rt.ToLower conf.Endpoint) (lit "https://") = false := by
          simpa using h1
        have h2f : HasPrefix (rt.ToLower conf.Endpoint) (lit "http://") = false := by
          simpa using h2
        refine ⟨h1f, h2f, ?_⟩
        rw [CreateExporter_grpc rt conf u h1f h2f hparse] at h
        cases hl : isLoopbackAddress rt (rt.ToLower conf.Endpoint) with
        | error e => rw [hl] at h; cases h
        | ok b =>
          rw [hl] at h
          injection h with h
          exact ⟨b, rfl, h.symm⟩

/-- What is read off a call to the HTTP constructor with the options of
`CreateExporter`. -/
theorem http_call_projections (hp p : GoString) (b : Bool) (headers : HeaderMap) :
    (ExporterCall.otlphttpNew
        ([.WithEndpoint hp, .WithURLPath p] ++ (if b then [.WithInsecure] else [])
          ++ [.WithHeaders headers])).isHttp = true
    ∧ (ExporterCall.otlphttpNew
        ([.WithEndpoint hp, .WithURLPath p] ++ (if b then [.WithInsecure] else [])
          ++ [.WithHeaders headers])).endpoints = [hp]
    ∧ (ExporterCall.otlphttpNew
        ([.WithEndpoint hp, .WithURLPath p] ++ (if b then [.WithInsecure] else [])
          ++ [.WithHeaders headers])).urlPaths = [p]
    ∧ (ExporterCall.otlphttpNew
        ([.WithEndpoint hp, .WithURLPath p] ++ (if b then [.WithInsecure] else [])
          ++ [.WithHeaders headers])).insecure = b
    ∧ (ExporterCall.otlphttpNew
        ([.WithEndpoint hp, .WithURLPath p] ++ (if b then [.WithInsecure] else [])
          ++ [.WithHeaders headers])).headers = [headers] := by
  cases b <;>
    simp [ExporterCall.isHttp, ExporterCall.endpoints, ExporterCall.urlPaths,
      ExporterCall.insecure, ExporterCall.headers]

/-- What is read off a call to the gRPC constructor with the options of
`CreateExporter`. -/
theorem grpc_call_projections (hp : GoString) (b : Bool) (headers : HeaderMap) :
    (ExporterCall.otlpgrpcNew
        ([.WithEndpoint hp] ++ (if b then [.WithInsecure] else [])
          ++ [.WithHeaders headers])).isHttp = false
    ∧ (ExporterCall.otlpgrpcNew
        ([.WithEndpoint hp] ++ (if b then [.WithInsecure] else [])
          ++ [.WithHeaders headers])).endpoints = [hp]
    ∧ (ExporterCall.otlpgrpcNew
        ([.WithEndpoint hp] ++ (if b then [.WithInsecure] else [])
          ++ [.WithHeaders headers])).urlPaths = []
    ∧ (ExporterCall.otlpgrpcNew
        ([.WithEndpoint hp] ++ (if b then [.WithInsecure] else [])
          ++ [.WithHeaders headers])).insecure = b
    ∧ (ExporterCall.otlpgrpcNew
        ([.WithEndpoint hp] ++ (if b then [.WithInsecure] else [])
          ++ [.WithHeaders headers])).headers = [headers] := by
  cases b <;>
    simp [ExporterCall.isHttp, ExporterCall.endpoints, ExporterCall.urlPaths,
      ExporterCall.insecure, ExporterCall.headers]

/-- C11, amended: two runs of `CreateExporter` with the same endpoint that both
build an exporter, whatever the headers and the resolvers of the two runs (the
case mapping of `strings.ToLower` being the same), choose the same protocol and
hand over the same host:port and the same URL path; the secure/insecure decision
is the same for the HTTP transport, and for the gRPC transport when the lookup
of the probed hostname answers the same in the two runs. -/
theorem c11_transport_same_for_same_endpoint {E : Type} (rt1 rt2 : Runtime E)
    (endpoint : GoString) (headers1 headers2 : HeaderMap) (c1 c2 : ExporterCall)
    (hlow : rt1.mapToLower = rt2.mapToLower)
    (hc1 : CreateExporter rt1 { Endpoint := endpoint, Headers := headers1 } = .ok c1)
    (hc2 : CreateExporter rt2 { Endpoint := endpoint, Headers := headers2 } = .ok c2) :
    c1.isHttp = c2.isHttp ∧ c1.endpoints = c2.endpoints ∧ c1.urlPaths = c2.urlPaths
      ∧ (c1.isHttp = true → c1.insecure = c2.insecure)
      ∧ ((∀ hostname, probeHostname rt1 (rt1.ToLower endpoint) = .ok hostname →
            rt1.LookupIP hostname = rt2.LookupIP hostname) →
          c1.insecure = c2.insecure) := by
  have hT := Runtime_ToLower_congr rt1 rt2 hlow
  obtain ⟨u1, hp1, hcase1⟩ := CreateExporter_ok_cases rt1 _ c1 hc1
  obtain ⟨u2, hp2, hcase2⟩ := CreateExporter_ok_cases rt2 _ c2 hc2
  simp only at hp1 hp2 hcase1 hcase2
  rw [← hT] at hp2 hcase2
  have hu : u1 = u2 := by
    rw [hp1] at hp2
    injection hp2
  subst hu
  rcases hcase1 with ⟨hpre1, hcall1⟩ | ⟨hf1, hf2, b1, hb1, hcall1⟩
  · rcases hcase2 with ⟨_, hcall2⟩ | ⟨hg1, hg2, _⟩
    · have ha := http_call_projections
        (if u1.Port = [] then
          (if u1.Scheme = lit "https" then u1.Host ++ lit ":443" else u1.Host ++ lit ":80")
         else u1.Host)
        (if u1.Path = [] then lit "/v1/traces" else u1.Path)
        (decide (u1.Scheme = lit "http")) headers1
      have hb := http_call_projections
        (if u1.Port = [] then
          (if u1.Scheme = lit "https" then u1.Host ++ lit ":443" else u1.Host ++ lit ":80")
         else u1.Host)
        (if u1.Path = [] then lit "/v1/traces" else u1.Path)
        (decide (u1.Scheme = lit "http")) headers2
      simp only [decide_eq_true_eq] at ha hb
      rw [hcall1, hcall2]
      obtain ⟨a1, a2, a3, a4, _⟩ := ha
      obtain ⟨b1, b2, b3, b4, _⟩ := hb
      rw [a1, a2, a3, a4, b1, b2, b3, b4]
      simp
    · rcases hpre1 with h | h
      · rw [h] at hg1; cases hg1
      · rw [h] at hg2; cases hg2
  · rcases hcase2 with ⟨hpre2, _⟩ | ⟨_, _, b2, hb2, hcall2⟩
    · rcases hpre2 with h | h
      · rw [h] at hf1; cases hf1
      · rw [h] at hf2; cases hf2
    · obtain ⟨a1, a2, a3, a4, _⟩ := grpc_call_projections (rt1.ToLower endpoint) b1 headers1
      obtain ⟨g1, g2, g3, g4, _⟩ := grpc_call_projections (rt1.ToLower endpoint) b2 headers2
      rw [hcall1, hcall2, a1, a2, a3, a4, g1, g2, g3, g4]
      refine ⟨rfl, rfl, rfl, fun h => absurd h (by decide), ?_⟩
      intro hlook
      unfold isLoopbackAddress at hb1 hb2
      rw [← probeHostname_congr rt1 rt2 hlow] at hb2
      cases hprobe : probeHostname rt1 (rt1.ToLower endpoint) with
      | error e => rw [hprobe] at hb1; cases hb1
      | ok hostname =>
        rw [hprobe] at hb1 hb2
        simp only at hb1 hb2
        rw [← hlook hostname hprobe] at hb2
        rw [hb1] at hb2
        injection hb2

/-- C11 at `https://collector.example.com`, run with two resolvers and two
header maps. -/
theorem c11_witness :
    (ExporterCall.otlphttpNew [.WithEndpoint (lit "collector.example.com:443"),
        .WithURLPath (lit "/v1/traces"), .WithHeaders []]).isHttp
      = (ExporterCall.otlphttpNew [.WithEndpoint (lit "collector.example.com:443"),
        .WithURLPath (lit "/v1/traces"), .WithHeaders [(lit "a", lit "b")]]).isHttp
    ∧ (ExporterCall.otlphttpNew [.WithEndpoint (lit "collector.example.com:443"),
        .WithURLPath (lit "/v1/traces"), .WithHeaders []]).endpoints
      = (ExporterCall.otlphttpNew [.WithEndpoint (lit "collector.example.com:443"),
        .WithURLPath (lit "/v1/traces"), .WithHeaders [(lit "a", lit "b")]]).endpoints
    ∧ (ExporterCall.otlphttpNew [.WithEndpoint (lit "collector.example.com:443"),
        .WithURLPath (lit "/v1/traces"), .WithHeaders []]).urlPaths
      = (ExporterCall.otlphttpNew [.WithEndpoint (lit "collector.example.com:443"),
        .WithURLPath (lit "/v1/traces"), .WithHeaders [(lit "a", lit "b")]]).urlPaths
    ∧ ((ExporterCall.otlphttpNew [.WithEndpoint (lit "collector.example.com:443"),
        .WithURLPath (lit "/v1/traces"), .WithHeaders []]).isHttp = true →
      (ExporterCall.otlphttpNew [.WithEndpoint (lit "collector.example.com:443"),
        .WithURLPath (lit "/v1/traces"), .WithHeaders []]).insecure
      = (ExporterCall.otlphttpNew [.WithEndpoint (lit "collector.example.com:443"),
        .WithURLPath (lit "/v1/traces"), .WithHeaders [(lit "a", lit "b")]]).insecure)
    ∧ ((∀ hostname,
          probeHostname sampleRuntime (sampleRuntime.ToLower (lit "https://collector.example.com"))
            = .ok hostname →
          sampleRuntime.LookupIP hostname = loopbackRuntime.LookupIP hostname) →
      (ExporterCall.otlphttpNew [.WithEndpoint (lit "collector.example.com:443"),
        .WithURLPath (lit "/v1/traces"), .WithHeaders []]).insecure
      = (ExporterCall.otlphttpNew [.WithEndpoint (lit "collector.example.com:443"),
        .WithURLPath (lit "/v1/traces"), .WithHeaders [(lit "a", lit "b")]]).insecure) :=
  c11_transport_same_for_same_endpoint sampleRuntime loopbackRuntime
    (lit "https://collector.example.com") [] [(lit "a", lit "b")] _ _ rfl rfl rfl

/-- C11 as stated fails on the secure/insecure decision of the gRPC branch, which
by design follows the addresses `net.LookupIP` returns: the same endpoint
`collector.example.com:4317` is secure when the name resolves to a public
address and insecure when it resolves to `127.0.0.1`. -/
theorem c11_counterexample :
    CreateExporter sampleRuntime { Endpoint := lit "collector.example.com:4317", Headers := [] }
      = .ok (.otlpgrpcNew [.WithEndpoint (lit "collector.example.com:4317"), .WithHeaders []])
    ∧ CreateExporter loopbackRuntime { Endpoint := lit "collector.example.com:4317", Headers := [] }
      = .ok (.otlpgrpcNew [.WithEndpoint (lit "collector.example.com:4317"), .WithInsecure,
          .WithHeaders []])
    ∧ (ExporterCall.otlpgrpcNew [.WithEndpoint (lit "collector.example.com:4317"),
          .WithHeaders []]).insecure
      ≠ (ExporterCall.otlpgrpcNew [.WithEndpoint (lit "collector.example.com:4317"), .WithInsecure,
          .WithHeaders []]).insecure :=
  ⟨rfl, rfl, by decide⟩

/-- `CreateExporter` reads the endpoint through `strings.ToLower` only. -/
theorem CreateExporter_congr_lower {E : Type} (rt : Runtime E) (e1 e2 : GoString)
    (headers : HeaderMap) (h : rt.ToLower e1 = rt.ToLower e2) :
    CreateExporter rt { Endpoint := e1, Headers := headers }
      = CreateExporter rt { Endpoint := e2, Headers := headers } := by
  unfold CreateExporter
  simp only [h]

/-- C15: two endpoints with the same lower-cased form (they differ in letter
case only) give the same result of `CreateExporter`, hence the same protocol,
host:port, URL path and security decision, and the host:port and the URL path
handed to the transport are those of the lower-cased endpoint: the lower-cased
endpoint itself for gRPC, the authority (with its default port) and the path of
the parsed lower-cased endpoint for HTTP. -/
theorem c15_depends_on_lower_cased_endpoint {E : Type} (rt : Runtime E) (e1 e2 : GoString)
    (headers : HeaderMap) (h : rt.ToLower e1 = rt.ToLower e2) :
    CreateExporter rt { Endpoint := e1, Headers := headers }
        = CreateExporter rt { Endpoint := e2, Headers := headers }
    ∧ ∀ call, CreateExporter rt { Endpoint := e1, Headers := headers } = .ok call →
        ∃ u, Parse rt.ToLower (rt.ToLower e1) = .ok u
          ∧ (call.isHttp = false → call.endpoints = [rt.ToLower e1])
          ∧ (call.isHttp = true →
              call.endpoints = [if u.Port = [] then
                  (if u.Scheme = lit "https" then u.Host ++ lit ":443" else u.Host ++ lit ":80")
                else u.Host]
              ∧ call.urlPaths = [if u.Path = [] then lit "/v1/traces" else u.Path]) := by
  refine ⟨CreateExporter_congr_lower rt e1 e2 headers h, ?_⟩
  intro call hcall
  obtain ⟨u, hp, hcase⟩ := CreateExporter_ok_cases rt _ call hcall
  simp only at hp hcase
  refine ⟨u, hp, ?_⟩
  rcases hcase with ⟨_, hc⟩ | ⟨_, _, b, _, hc⟩
  · obtain ⟨a1, a2, a3, _, _⟩ := http_call_projections
      (if u.Port = [] then
        (if u.Scheme = lit "https" then u.Host ++ lit ":443" else u.Host ++ lit ":80")
       else u.Host)
      (if u.Path = [] then lit "/v1/traces" else u.Path)
      (decide (u.Scheme = lit "http")) headers
    simp only [decide_eq_true_eq] at a1 a2 a3
    rw [hc, a1, a2, a3]
    exact ⟨fun h => absurd h (by decide), fun _ => ⟨rfl, rfl⟩⟩
  · obtain ⟨a1, a2, _, _, _⟩ := grpc_call_projections (rt.ToLower e1) b headers
    rw [hc, a1, a2]
    exact ⟨fun _ => rfl, fun h => absurd h (by decide)⟩

/-- Two ASCII texts that agree up to the case of their letters have the same
lower-cased form. -/
theorem ToLower_eq_of_ascii_case {E : Type} (rt : Runtime E) (e1 e2 : GoString)
    (h1 : ∀ c ∈ e1, c < 128) (h2 : ∀ c ∈ e2, c < 128)
    (h : e1.map lowerByte = e2.map lowerByte) : rt.ToLower e1 = rt.ToLower e2 := by
  rw [Runtime.ToLower, Runtime.ToLower, ToLower_ascii _ _ h1, ToLower_ascii _ _ h2, h]

/-- C15 at `HTTP://Collector.Example.COM:5000/Custom` and its lower-cased form. -/
theorem c15_witness :
    CreateExporter sampleRuntime
        { Endpoint := lit "HTTP://Collector.Example.COM:5000/Custom", Headers := [] }
        = CreateExporter sampleRuntime
        { Endpoint := lit "http://collector.example.com:5000/custom", Headers := [] }
    ∧ ∀ call, CreateExporter sampleRuntime
          { Endpoint := lit "HTTP://Collector.Example.COM:5000/Custom", Headers := [] } = .ok call →
        ∃ u, Parse sampleRuntime.ToLower
              (sampleRuntime.ToLower (lit "HTTP://Collector.Example.COM:5000/Custom")) = .ok u
          ∧ (call.isHttp = false →
              call.endpoints
                = [sampleRuntime.ToLower (lit "HTTP://Collector.Example.COM:5000/Custom")])
          ∧ (call.isHttp = true →
              call.endpoints = [if u.Port = [] then
                  (if u.Scheme = lit "https" then u.Host ++ lit ":443" else u.Host ++ lit ":80")
                else u.Host]
              ∧ call.urlPaths = [if u.Path = [] then lit "/v1/traces" else u.Path]) :=
  c15_depends_on_lower_cased_endpoint sampleRuntime
    (lit "HTTP://Collector.Example.COM:5000/Custom")
    (lit "http://collector.example.com:5000/custom") []
    (ToLower_eq_of_ascii_case sampleRuntime _ _ (by decide) (by decide) (by decide))

/-- C16 fails in the code: when `net.LookupIP` returns an empty list and no
error, the loop of `isLoopbackAddress` leaves `allAreLoopback` at `true` and the
gRPC channel of `collector.example.com:4317` is made insecure. -/
theorem c16_empty_lookup_is_insecure :
    emptyLookupRuntime.LookupIP (lit "collector.example.com") = .ok []
    ∧ CreateExporter emptyLookupRuntime
        { Endpoint := lit "collector.example.com:4317", Headers := [] }
      = .ok (.otlpgrpcNew [.WithEndpoint (lit "collector.example.com:4317"), .WithInsecure,
          .WithHeaders []]) :=
  ⟨rfl, rfl⟩

/-- C17 fails in the code: `http://host:` parses with host `host:` and an empty
port, so `:80` is appended to `u.Host` and the HTTP transport is handed
`host::80`, with two colons. -/
theorem c17_empty_port_gives_two_colons :
    Parse sampleRuntime.ToLower (sampleRuntime.ToLower (lit "http://host:"))
      = .ok { URL.zero with Scheme := lit "http", Host := lit "host:" }
    ∧ URL.Hostname { URL.zero with Scheme := lit "http", Host := lit "host:" } = lit "host"
    ∧ URL.Port { URL.zero with Scheme := lit "http", Host := lit "host:" } = []
    ∧ CreateExporter sampleRuntime { Endpoint := lit "http://host:", Headers := [] }
      = .ok (.otlphttpNew [.WithEndpoint (lit "host::80"), .WithURLPath (lit "/v1/traces"),
          .WithInsecure, .WithHeaders []]) :=
  ⟨rfl, rfl, rfl, rfl⟩

/-! ## Lemmas on the traceparent codec and on the finish command -/

/-- A hexadecimal digit is written as a decimal digit or a letter `a` to `f`. -/
theorem hexDigit_range (n : Nat) (h : n < 16) :
    (48 ≤ hexDigit n ∧ hexDigit n ≤ 57) ∨ (97 ≤ hexDigit n ∧ hexDigit n ≤ 102) := by
  unfold hexDigit
  split_ifs <;> omega

/-- The value of the digit written for `n` is `n`. -/
theorem hexValue_hexDigit (n : Nat) (h : n < 16) : hexValue (hexDigit n) = some n := by
  unfold hexValue hexDigit
  by_cases h10 : n < 10
  · have h1 : 48 ≤ 48 + n ∧ 48 + n ≤ 57 := by omega
    simp [h10, h1]
  · have h1 : ¬ (48 ≤ 87 + n ∧ 87 + n ≤ 57) := by omega
    have h2 : 97 ≤ 87 + n ∧ 87 + n ≤ 102 := by omega
    simp [h10, h1, h2]

/-- Each byte is written as two digits. -/
theorem hexEncode_length (bs : List Nat) : (hexEncode bs).length = 2 * bs.length := by
  induction bs with
  | nil => rfl
  | cons b bs ih => simp [hexEncode, ih]; omega

/-- No hyphen occurs in the text of an identifier. -/
theorem hexEncode_no_hyphen (bs : List Nat) : 45 ∉ hexEncode bs := by
  induction bs with
  | nil => simp [hexEncode]
  | cons b bs ih =>
    intro h
    simp only [hexEncode, List.mem_cons] at h
    rcases h with h | h | h
    · have := hexDigit_range (b / 16 % 16) (by omega); omega
    · have := hexDigit_range (b % 16) (by omega); omega
    · exact ih h

/-- Decoding the text of bytes gives the bytes back. -/
theorem hexDecode_hexEncode (bs : List Nat) (h : ∀ b ∈ bs, b < 256) :
    hexDecode (hexEncode bs) = some bs := by
  induction bs with
  | nil => rfl
  | cons b bs ih =>
    have hb := h b (List.mem_cons_self _ _)
    have ih2 := ih (fun x hx => h x (List.mem_cons_of_mem _ hx))
    simp only [hexEncode, hexDecode, hexValue_hexDigit (b / 16 % 16) (by omega),
      hexValue_hexDigit (b % 16) (by omega), ih2]
    congr 2
    omega

/-- Round trip of the codec: the traceparent `Encode` writes for a valid
identity is decoded to that identity. -/
theorem ParseTraceParent_Encode (traceId spanId : List Nat)
    (hT : validID 16 traceId) (hS : validID 8 spanId) :
    ParseTraceParent (Encode traceId spanId) = some (traceId, spanId) := by
  obtain ⟨hTl, hTb, tb, htb, htb0⟩ := hT
  obtain ⟨hSl, hSb, sb, hsb, hsb0⟩ := hS
  have hsplit : Split (Encode traceId spanId) 45
      = [hexEncode [traceparentVersion], hexEncode traceId, hexEncode spanId,
          hexEncode [traceparentFlags]] := by
    unfold Encode
    apply Split_joinWith _ _ (by simp)
    intro e he
    simp only [List.mem_cons, List.mem_singleton, List.not_mem_nil, or_false] at he
    rcases he with h | h | h | h <;> rw [h] <;> exact hexEncode_no_hyphen _
  have hTz : ¬ traceId.all (fun b => decide (b = 0)) = true := by
    intro h
    have := List.all_eq_true.mp h tb htb
    simp at this
    exact htb0 this
  have hSz : ¬ spanId.all (fun b => decide (b = 0)) = true := by
    intro h
    have := List.all_eq_true.mp h sb hsb
    simp at this
    exact hsb0 this
  unfold ParseTraceParent
  rw [hsplit]
  simp only [hexEncode_length, hTl, hSl, List.length_singleton,
    hexDecode_hexEncode traceId hTb, hexDecode_hexEncode spanId hSb,
    hexDecode_hexEncode [traceparentVersion] (by decide),
    hexDecode_hexEncode [traceparentFlags] (by decide)]
  simp [hTz, hSz]

/-- The empty text is not a traceparent. -/
theorem ParseTraceParent_nil : ParseTraceParent [] = none := rfl

/-- The result of finish for a traceparent that decodes, with the exporter of
the tests injected. -/
theorem Run_with_test_exporter {E : Type} (cmd : FinishCommand) (rt : Runtime E)
    (getenv : GoString → GoString) (known : StartKnowledge) (flags : FinishFlags)
    (tp : GoString) (traceId spanId : List Nat) (exporter : MemoryExporter)
    (hvalid : ParseTraceParent tp = some (traceId, spanId))
    (hexp : cmd.testSpanExporter = some exporter)
    (hsrc : (∃ rest, flags.args = tp :: rest)
      ∨ (flags.args = [] ∧ getenv TraceParentEnvVar = tp)) :
    cmd.Run rt getenv known flags
      = { exitCode := 0
          errorOutput := []
          failure := none
          exported := [cmd.span known flags traceId spanId]
          testSpanExporter :=
            some { Spans := exporter.Spans ++ [cmd.span known flags traceId spanId] } } := by
  have htp : tp ≠ [] := by
    intro h
    rw [h, ParseTraceParent_nil] at hvalid
    cases hvalid
  unfold FinishCommand.Run
  rcases hsrc with ⟨rest, ha⟩ | ⟨ha, he⟩
  · simp only [ha, hvalid, hexp]
  · simp only [ha, he, htp, ne_eq, not_false_eq_true, if_true, hvalid, hexp]

/-- The result of finish with no injected exporter, for a traceparent that
decodes: the exit code is 0 when the exporter of the environment can be built
and 1 when it cannot. -/
theorem Run_without_test_exporter {E : Type} (cmd : FinishCommand) (rt : Runtime E)
    (getenv : GoString → GoString) (known : StartKnowledge) (flags : FinishFlags)
    (tp : GoString) (traceId spanId : List Nat)
    (hvalid : ParseTraceParent tp = some (traceId, spanId))
    (hexp : cmd.testSpanExporter = none)
    (hsrc : (∃ rest, flags.args = tp :: rest)
      ∨ (flags.args = [] ∧ getenv TraceParentEnvVar = tp)) :
    ((∃ conf call, ConfigFromEnvironment (E := E) getenv = .ok conf
        ∧ CreateExporter rt conf = .ok call) →
      (cmd.Run rt getenv known flags).exitCode = 0
      ∧ (cmd.Run rt getenv known flags).exported = [cmd.span known flags traceId spanId])
    ∧ ((¬ ∃ conf call, ConfigFromEnvironment (E := E) getenv = .ok conf
        ∧ CreateExporter rt conf = .ok call) →
      (cmd.Run rt getenv known flags).exitCode = 1
      ∧ (cmd.Run rt getenv known flags).exported = []) := by
  have htp : tp ≠ [] := by
    intro h
    rw [h, ParseTraceParent_nil] at hvalid
    cases hvalid
  have hrun : cmd.Run rt getenv known flags
      = match ConfigFromEnvironment (E := E) getenv with
        | .error err => cmd.fail (.exporter err)
        | .ok conf =>
          match CreateExporter rt conf with
          | .error err => cmd.fail (.exporter err)
          | .ok _ =>
            { exitCode := 0
              errorOutput := []
              failure := none
              exported := [cmd.span known flags traceId spanId]
              testSpanExporter := none } := by
    unfold FinishCommand.Run
    rcases hsrc with ⟨rest, ha⟩ | ⟨ha, he⟩
    · simp only [ha, hvalid, hexp]
    · simp only [ha, he, htp, ne_eq, not_false_eq_true, if_true, hvalid, hexp]
  rw [hrun]
  cases hc : ConfigFromEnvironment (E := E) getenv with
  | error err =>
    refine ⟨?_, fun _ => ⟨rfl, rfl⟩⟩
    rintro ⟨conf, call, h, _⟩
    cases h
  | ok conf =>
    dsimp only
    cases hx : CreateExporter rt conf with
    | error err =>
      refine ⟨?_, fun _ => ⟨rfl, rfl⟩⟩
      rintro ⟨conf2, call, h, h2⟩
      cases h
      rw [hx] at h2
      cases h2
    | ok call =>
      refine ⟨fun _ => ⟨rfl, rfl⟩, fun h => absurd ⟨conf, call, rfl, hx⟩ h⟩

/-! ## The loopback probe of a bare host:port -/

/-- A bare `host:port` reaches the gRPC branch and is probed by its lower-cased
host: the lower-cased endpoint begins with neither `https://` nor `http://`,
parses as a URL, and the hostname `isLoopbackAddress` looks up is the
lower-cased host. -/
theorem host_port_reaches_grpc {E : Type} (rt : Runtime E) (host port : GoString)
    (hfirst : ∃ c t, host = c :: t ∧ isLetter c = true)
    (hhost : ∀ c ∈ host, isPlainHostByte c = true)
    (hne : port ≠ []) (hport : ∀ c ∈ port, isDigit c = true) :
    HasPrefix (rt.ToLower (host ++ 58 :: port)) (lit "https://") = false
    ∧ HasPrefix (rt.ToLower (host ++ 58 :: port)) (lit "http://") = false
    ∧ Parse rt.ToLower (rt.ToLower (host ++ 58 :: port))
        = .ok { URL.zero with Scheme := host.map lowerByte, Opaque := port }
    ∧ probeHostname rt (rt.ToLower (host ++ 58 :: port)) = .ok (host.map lowerByte) := by
  have hlow : rt.ToLower (host ++ 58 :: port) = (host ++ 58 :: port).map lowerByte := by
    apply ToLower_ascii
    intro c hc
    have := hostPort_byte host port hhost hport c hc
    omega
  have hportmap : port.map lowerByte = port := by
    rw [List.map_congr_left (fun c hc => isDigit_lower c (hport c hc))]
    simp
  have hshape : (host ++ 58 :: port).map lowerByte = host.map lowerByte ++ 58 :: port := by
    simp [hportmap, lowerByte]
  have hfirst2 : ∃ c t, host.map lowerByte = c :: t ∧ isLetter c = true := by
    obtain ⟨c, t, hct, hc⟩ := hfirst
    exact ⟨lowerByte c, t.map lowerByte, by simp [hct], isLetter_lower c hc⟩
  have hhost2 : ∀ c ∈ host.map lowerByte, isPlainHostByte c = true := by
    intro c hc
    obtain ⟨x, hx, rfl⟩ := List.mem_map.mp hc
    exact isPlainHostByte_lower x (hhost x hx)
  have hb := hostPort_byte (host.map lowerByte) port hhost2 hport
  have h47 : 47 ∉ host.map lowerByte ++ 58 :: port := fun h => by have := hb 47 h; omega
  have hidem : (host.map lowerByte).map lowerByte = host.map lowerByte := by
    rw [List.map_map]
    apply List.map_congr_left
    intro c _
    exact lowerByte_idem c
  have hparse := Parse_host_port rt (host.map lowerByte) port hfirst2 hhost2 hne hport
  rw [hidem] at hparse
  rw [hlow, hshape]
  exact ⟨HasPrefix_false_of_not_mem _ _ 47 (by decide) h47,
    HasPrefix_false_of_not_mem _ _ 47 (by decide) h47, hparse,
    probeHostname_host_port rt (host.map lowerByte) port hfirst2 hhost2 hne hport⟩

/-- C8: in the gRPC branch (the lower-cased endpoint parses and begins with
neither `https://` nor `http://`), when `net.LookupIP` returns the addresses
`ips` for the hostname `isLoopbackAddress` works out, `CreateExporter` calls the
gRPC transport with `WithInsecure` exactly when every address in `ips` is a
loopback address, and without it exactly when some address is not.  For a bare
`host:port` (host of letters, digits, dots and hyphens starting with a letter,
decimal port) the hostname looked up is the lower-cased host: with
`net.LookupIP` returning `ips` for it, the gRPC channel is insecure exactly when
every address in `ips` is loopback and secure exactly when some address is
not. -/
theorem c8_grpc_insecure_iff_all_loopback {E : Type} (rt : Runtime E) :
    (∀ (conf : ExporterConfig) (u : URL) (hostname : GoString) (ips : List IP),
        HasPrefix (rt.ToLower conf.Endpoint) (lit "https://") = false →
        HasPrefix (rt.ToLower conf.Endpoint) (lit "http://") = false →
        Parse rt.ToLower (rt.ToLower conf.Endpoint) = .ok u →
        probeHostname rt (rt.ToLower conf.Endpoint) = .ok hostname →
        rt.LookupIP hostname = .ok ips →
        ∃ call, CreateExporter rt conf = .ok call ∧ call.isHttp = false
          ∧ (call.insecure = true ↔ ∀ ip ∈ ips, ip.IsLoopback = true)
          ∧ (call.insecure = false ↔ ∃ ip ∈ ips, ip.IsLoopback = false))
    ∧ (∀ (host port : GoString) (headers : HeaderMap) (ips : List IP),
        (∃ c t, host = c :: t ∧ isLetter c = true) →
        (∀ c ∈ host, isPlainHostByte c = true) →
        port ≠ [] → (∀ c ∈ port, isDigit c = true) →
        rt.LookupIP (host.map lowerByte) = .ok ips →
        ∃ call, CreateExporter rt { Endpoint := host ++ 58 :: port, Headers := headers } = .ok call
          ∧ call.isHttp = false
          ∧ call.endpoints = [(host ++ 58 :: port).map lowerByte]
          ∧ (call.insecure = true ↔ ∀ ip ∈ ips, ip.IsLoopback = true)
          ∧ (call.insecure = false ↔ ∃ ip ∈ ips, ip.IsLoopback = false)) := by
  refine ⟨fun conf u hostname ips hpre1 hpre2 hparse hhost hlook =>
    grpc_insecure_iff_of_probe rt conf u hostname ips hpre1 hpre2 hparse hhost hlook, ?_⟩
  intro host port headers ips hfirst hhost hne hport hlook
  obtain ⟨hpre1, hpre2, hparse, hprobe⟩ := host_port_reaches_grpc rt host port hfirst hhost hne hport
  obtain ⟨call, hcall, hhttp, h1, h2⟩ := grpc_insecure_iff_of_probe rt
    { Endpoint := host ++ 58 :: port, Headers := headers } _ _ ips hpre1 hpre2 hparse hprobe hlook
  refine ⟨call, hcall, hhttp, ?_, h1, h2⟩
  have hlow : rt.ToLower (host ++ 58 :: port) = (host ++ 58 :: port).map lowerByte := by
    apply ToLower_ascii
    intro c hc
    have := hostPort_byte host port hhost hport c hc
    omega
  obtain ⟨u, _, hcase⟩ := CreateExporter_ok_cases rt _ call hcall
  rcases hcase with ⟨hpre, _⟩ | ⟨_, _, b, _, hc⟩
  · rcases hpre with h | h
    · rw [hpre1] at h; cases h
    · rw [hpre2] at h; cases h
  · rw [hc, (grpc_call_projections _ b headers).2.1, hlow]

/-- C8 on its two examples: `localhost:4317`, whose host resolves to `127.0.0.1`
and `::1`, gets an insecure gRPC channel; `collector.example.com:4317`, whose
host resolves to the public address `203.0.113.7`, gets a secure one. -/
theorem c8_witness :
    (∃ call, CreateExporter sampleRuntime
          { Endpoint := lit "localhost" ++ 58 :: lit "4317", Headers := [] } = .ok call
        ∧ call.isHttp = false ∧ call.endpoints = [lit "localhost:4317"]
        ∧ call.insecure = true)
    ∧ (∃ call, CreateExporter sampleRuntime
          { Endpoint := lit "collector.example.com" ++ 58 :: lit "4317", Headers := [] } = .ok call
        ∧ call.isHttp = false ∧ call.endpoints = [lit "collector.example.com:4317"]
        ∧ call.insecure = false)
    ∧ (∃ call, CreateExporter sampleRuntime
          { Endpoint := lit "collector.example.com:4317", Headers := [] } = .ok call
        ∧ call.isHttp = false
        ∧ (call.insecure = true ↔ ∀ ip ∈ [[203, 0, 113, 7]], IP.IsLoopback ip = true)
        ∧ (call.insecure = false ↔ ∃ ip ∈ [[203, 0, 113, 7]], IP.IsLoopback ip = false)) := by
  obtain ⟨c1, h1, h2, h3, h4, _⟩ := (c8_grpc_insecure_iff_all_loopback sampleRuntime).2
    (lit "localhost") (lit "4317") [] [[127, 0, 0, 1], IPv6loopback]
    ⟨108, lit "ocalhost", by decide, by decide⟩ (by decide) (by decide) (by decide) rfl
  obtain ⟨c2, k1, k2, k3, _, k5⟩ := (c8_grpc_insecure_iff_all_loopback sampleRuntime).2
    (lit "collector.example.com") (lit "4317") [] [[203, 0, 113, 7]]
    ⟨99, lit "ollector.example.com", by decide, by decide⟩ (by decide) (by decide) (by decide) rfl
  exact ⟨⟨c1, h1, h2, h3, h4.mpr (by decide)⟩,
    ⟨c2, k1, k2, k3, k5.mpr ⟨[203, 0, 113, 7], by decide, by decide⟩⟩,
    (c8_grpc_insecure_iff_all_loopback sampleRuntime).1
      { Endpoint := lit "collector.example.com:4317", Headers := [] }
      { URL.zero with Scheme := lit "collector.example.com", Opaque := lit "4317" }
      (lit "collector.example.com") [[203, 0, 113, 7]] rfl rfl rfl rfl rfl⟩

/-! ## The exit code of finish -/

/-- C13, amended: finish with no positional argument and the traceparent
variable unset returns exit code 1, its error output contains "this command
takes 1 argument: traceparent", and nothing is exported; with a traceparent that
decodes, given as the first positional argument or, with no positional
argument, in the traceparent variable, finish returns exit code 0 when its span
exporter is injected (as the tests do) or can be built from the environment
(`ConfigFromEnvironment` and `CreateExporter` succeed), and exit code 1 when no
exporter is injected and none can be built. -/
theorem c13_finish_exit_code {E : Type} (cmd : FinishCommand) (rt : Runtime E)
    (getenv : GoString → GoString) (known : StartKnowledge) (flags : FinishFlags) :
    (flags.args = [] → getenv TraceParentEnvVar = [] →
        (cmd.Run rt getenv known flags).exitCode = 1
        ∧ Contains (cmd.Run rt getenv known flags).errorOutput
            (lit "this command takes 1 argument: traceparent") = true
        ∧ (cmd.Run rt getenv known flags).exported = [])
    ∧ (∀ (tp : GoString) (traceId spanId : List Nat),
        ParseTraceParent tp = some (traceId, spanId) →
        ((∃ rest, flags.args = tp :: rest)
          ∨ (flags.args = [] ∧ getenv TraceParentEnvVar = tp)) →
        ((cmd.testSpanExporter ≠ none
            ∨ ∃ conf call, ConfigFromEnvironment (E := E) getenv = .ok conf
                ∧ CreateExporter rt conf = .ok call) →
          (cmd.Run rt getenv known flags).exitCode = 0)
        ∧ (cmd.testSpanExporter = none →
            (¬ ∃ conf call, ConfigFromEnvironment (E := E) getenv = .ok conf
                ∧ CreateExporter rt conf = .ok call) →
          (cmd.Run rt getenv known flags).exitCode = 1)) := by
  refine ⟨?_, ?_⟩
  · intro ha he
    have : cmd.Run rt getenv known flags = cmd.fail .MissingTraceParent := by
      unfold FinishCommand.Run
      simp only [ha, he, ne_eq, not_true_eq_false, if_false]
    rw [this]
    refine ⟨rfl, ?_, rfl⟩
    simp only [FinishCommand.fail, FinishFailure.diagnostic]
    decide
  · intro tp traceId spanId hvalid hsrc
    cases hexp : cmd.testSpanExporter with
    | some exporter =>
      refine ⟨fun _ => ?_, fun h => nomatch h⟩
      rw [Run_with_test_exporter cmd rt getenv known flags tp traceId spanId exporter hvalid hexp
        hsrc]
    | none =>
      have hrun := Run_without_test_exporter cmd rt getenv known flags tp traceId spanId hvalid
        hexp hsrc
      refine ⟨fun h => ?_, fun _ hno => (hrun.2 hno).1⟩
      rcases h with h | h
      · exact absurd rfl h
      · exact (hrun.1 h).1

/-- C13 on the tests and on an exporter that cannot be built: no traceparent at
all; the sample traceparent as argument and in the environment, exporter
injected; the sample traceparent as argument with the default endpoint
`localhost:4317`; and with a headers variable that holds no colon. -/
theorem c13_witness :
    ((FinishCommand.Run (NewFinishCommand 10) sampleRuntime emptyEnv (sampleKnowledge 0)
          { args := [], attrs := [], error := none }).exitCode = 1
      ∧ Contains (FinishCommand.Run (NewFinishCommand 10) sampleRuntime emptyEnv
            (sampleKnowledge 0) { args := [], attrs := [], error := none }).errorOutput
          (lit "this command takes 1 argument: traceparent") = true
      ∧ (FinishCommand.Run (NewFinishCommand 10) sampleRuntime emptyEnv (sampleKnowledge 0)
          { args := [], attrs := [], error := none }).exported = [])
    ∧ (FinishCommand.Run (createTestFinishCommand 10) sampleRuntime emptyEnv
          (sampleKnowledge 0)
          { args := [sampleTraceParent], attrs := [], error := none }).exitCode = 0
    ∧ (FinishCommand.Run (createTestFinishCommand 10) sampleRuntime
          (envWithTraceParent sampleTraceParent) (sampleKnowledge 0)
          { args := [], attrs := [], error := none }).exitCode = 0
    ∧ (FinishCommand.Run (NewFinishCommand 10) sampleRuntime emptyEnv (sampleKnowledge 0)
          { args := [sampleTraceParent], attrs := [], error := none }).exitCode = 0
    ∧ (FinishCommand.Run (NewFinishCommand 10) sampleRuntime (envWithHeaders (lit "a-b"))
          (sampleKnowledge 0)
          { args := [sampleTraceParent], attrs := [], error := none }).exitCode = 1 :=
  ⟨(c13_finish_exit_code (NewFinishCommand 10) sampleRuntime emptyEnv (sampleKnowledge 0)
      { args := [], attrs := [], error := none }).1 rfl rfl,
   ((c13_finish_exit_code (createTestFinishCommand 10) sampleRuntime emptyEnv
      (sampleKnowledge 0) { args := [sampleTraceParent], attrs := [], error := none }).2
      sampleTraceParent sampleTraceId sampleSpanId rfl (Or.inl ⟨[], rfl⟩)).1
      (Or.inl (by decide)),
   ((c13_finish_exit_code (createTestFinishCommand 10) sampleRuntime
      (envWithTraceParent sampleTraceParent) (sampleKnowledge 0)
      { args := [], attrs := [], error := none }).2
      sampleTraceParent sampleTraceId sampleSpanId rfl (Or.inr ⟨rfl, rfl⟩)).1
      (Or.inl (by decide)),
   ((c13_finish_exit_code (NewFinishCommand 10) sampleRuntime emptyEnv
      (sampleKnowledge 0) { args := [sampleTraceParent], attrs := [], error := none }).2
      sampleTraceParent sampleTraceId sampleSpanId rfl (Or.inl ⟨[], rfl⟩)).1
      (Or.inr ⟨_, _, rfl, rfl⟩),
   ((c13_finish_exit_code (NewFinishCommand 10) sampleRuntime (envWithHeaders (lit "a-b"))
      (sampleKnowledge 0) { args := [sampleTraceParent], attrs := [], error := none }).2
      sampleTraceParent sampleTraceId sampleSpanId rfl (Or.inl ⟨[], rfl⟩)).2 rfl
      (by rintro ⟨conf, call, h, _⟩; exact nomatch h)⟩

/-- C13 as stated fails when the span exporter cannot be built: the sample
traceparent decodes, yet finish with no injected exporter and a headers
variable `a-b`, which holds no colon, returns exit code 1 and exports nothing. -/
theorem c13_counterexample :
    ParseTraceParent sampleTraceParent = some (sampleTraceId, sampleSpanId)
    ∧ ConfigFromEnvironment (E := Nat) (envWithHeaders (lit "a-b"))
        = .error (.missingColon (lit "a-b"))
    ∧ (FinishCommand.Run (NewFinishCommand 10) sampleRuntime (envWithHeaders (lit "a-b"))
          (sampleKnowledge 0)
          { args := [sampleTraceParent], attrs := [], error := none }).exitCode = 1
    ∧ (FinishCommand.Run (NewFinishCommand 10) sampleRuntime (envWithHeaders (lit "a-b"))
          (sampleKnowledge 0)
          { args := [sampleTraceParent], attrs := [], error := none }).exported = [] :=
  ⟨rfl, rfl, rfl, rfl⟩

/-- C14, amended: finish invoked with a traceparent that decodes and with the
error message `message`, when its span exporter is injected (as the tests do)
or can be built from the environment, returns exit code 0 and exports exactly
one span, whose status code is `error` and whose status description is exactly
`message`, the injected exporter recording that span; when no exporter is
injected and none can be built, it returns exit code 1 and exports nothing. -/
theorem c14_error_flag_sets_status {E : Type} (cmd : FinishCommand) (rt : Runtime E)
    (getenv : GoString → GoString) (known : StartKnowledge) (flags : FinishFlags)
    (tp message : GoString) (traceId spanId : List Nat)
    (hvalid : ParseTraceParent tp = some (traceId, spanId))
    (hsrc : (∃ rest, flags.args = tp :: rest)
      ∨ (flags.args = [] ∧ getenv TraceParentEnvVar = tp))
    (herr : flags.error = some message) :
    ((cmd.testSpanExporter ≠ none
        ∨ ∃ conf call, ConfigFromEnvironment (E := E) getenv = .ok conf
            ∧ CreateExporter rt conf = .ok call) →
      (cmd.Run rt getenv known flags).exitCode = 0
      ∧ ∃ span, (cmd.Run rt getenv known flags).exported = [span]
          ∧ span.status.code = .error ∧ span.status.description = message
          ∧ ∀ exporter, cmd.testSpanExporter = some exporter →
              (cmd.Run rt getenv known flags).testSpanExporter
                = some { Spans := exporter.Spans ++ [span] })
    ∧ (cmd.testSpanExporter = none →
        (¬ ∃ conf call, ConfigFromEnvironment (E := E) getenv = .ok conf
            ∧ CreateExporter rt conf = .ok call) →
        (cmd.Run rt getenv known flags).exitCode = 1
        ∧ (cmd.Run rt getenv known flags).exported = []) := by
  have hcode : (cmd.span known flags traceId spanId).status.code = .error := by
    simp only [FinishCommand.span, herr, statusOfErrorFlag]
  have hdesc : (cmd.span known flags traceId spanId).status.description = message := by
    simp only [FinishCommand.span, herr, statusOfErrorFlag]
  cases hexp : cmd.testSpanExporter with
  | some exporter =>
    refine ⟨fun _ => ?_, fun h => nomatch h⟩
    rw [Run_with_test_exporter cmd rt getenv known flags tp traceId spanId exporter hvalid hexp
      hsrc]
    refine ⟨rfl, _, rfl, hcode, hdesc, ?_⟩
    intro exporter2 h2
    injection h2 with h2
    rw [h2]
  | none =>
    have hrun := Run_without_test_exporter cmd rt getenv known flags tp traceId spanId hvalid
      hexp hsrc
    refine ⟨fun h => ?_, fun _ hno => hrun.2 hno⟩
    rcases h with h | h
    · exact absurd rfl h
    · exact ⟨(hrun.1 h).1, _, (hrun.1 h).2, hcode, hdesc, fun exporter h2 => nomatch h2⟩

/-- C14 on the test of the error flag, the message "oh dear" with the memory
exporter injected, and on the same invocation with no exporter injected and a
headers variable that holds no colon. -/
theorem c14_witness :
    ((FinishCommand.Run (createTestFinishCommand 10) sampleRuntime emptyEnv (sampleKnowledge 0)
        { args := [sampleTraceParent], attrs := [], error := some (lit "oh dear") }).exitCode = 0
      ∧ ∃ span,
        (FinishCommand.Run (createTestFinishCommand 10) sampleRuntime emptyEnv
          (sampleKnowledge 0)
          { args := [sampleTraceParent], attrs := [], error := some (lit "oh dear") }).exported
          = [span]
        ∧ span.status.code = .error ∧ span.status.description = lit "oh dear"
        ∧ ∀ exporter, (createTestFinishCommand 10).testSpanExporter = some exporter →
            (FinishCommand.Run (createTestFinishCommand 10) sampleRuntime emptyEnv
              (sampleKnowledge 0)
              { args := [sampleTraceParent], attrs := [],
                error := some (lit "oh dear") }).testSpanExporter
              = some { Spans := exporter.Spans ++ [span] })
    ∧ ((FinishCommand.Run (NewFinishCommand 10) sampleRuntime (envWithHeaders (lit "a-b"))
          (sampleKnowledge 0)
          { args := [sampleTraceParent], attrs := [],
            error := some (lit "oh dear") }).exitCode = 1
      ∧ (FinishCommand.Run (NewFinishCommand 10) sampleRuntime (envWithHeaders (lit "a-b"))
          (sampleKnowledge 0)
          { args := [sampleTraceParent], attrs := [],
            error := some (lit "oh dear") }).exported = []) :=
  ⟨(c14_error_flag_sets_status (createTestFinishCommand 10) sampleRuntime emptyEnv
      (sampleKnowledge 0)
      { args := [sampleTraceParent], attrs := [], error := some (lit "oh dear") }
      sampleTraceParent (lit "oh dear") sampleTraceId sampleSpanId rfl
      (Or.inl ⟨[], rfl⟩) rfl).1 (Or.inl (by decide)),
   (c14_error_flag_sets_status (NewFinishCommand 10) sampleRuntime (envWithHeaders (lit "a-b"))
      (sampleKnowledge 0)
      { args := [sampleTraceParent], attrs := [], error := some (lit "oh dear") }
      sampleTraceParent (lit "oh dear") sampleTraceId sampleSpanId rfl
      (Or.inl ⟨[], rfl⟩) rfl).2 rfl
      (by rintro ⟨conf, call, h, _⟩; exact nomatch h)⟩

/-- C14 as stated fails when the span exporter cannot be built: finish with the
sample traceparent, which decodes, and the error message "oh dear", with no
injected exporter and a headers variable `a-b`, exports no span and returns exit
code 1. -/
theorem c14_counterexample :
    ParseTraceParent sampleTraceParent = some (sampleTraceId, sampleSpanId)
    ∧ (FinishCommand.Run (NewFinishCommand 10) sampleRuntime (envWithHeaders (lit "a-b"))
          (sampleKnowledge 0)
          { args := [sampleTraceParent], attrs := [],
            error := some (lit "oh dear") }).exported = []
    ∧ (FinishCommand.Run (NewFinishCommand 10) sampleRuntime (envWithHeaders (lit "a-b"))
          (sampleKnowledge 0)
          { args := [sampleTraceParent], attrs := [],
            error := some (lit "oh dear") }).exitCode = 1
    ∧ (FinishCommand.Run (NewFinishCommand 10) sampleRuntime (envWithHeaders (lit "a-b"))
          (sampleKnowledge 0)
          { args := [sampleTraceParent], attrs := [],
            error := some (lit "oh dear") }).failure
        = some (.exporter (.missingColon (lit "a-b"))) :=
  ⟨rfl, rfl, rfl, rfl⟩

end Tracing
